import Mathlib

/-!
Verification development for the gw2-data entry classification,
name-resolution and deterministic-sorting pipeline.

Python dictionaries are modelled as insertion-ordered association lists
(keys are unique in all data produced by the pipeline), Python values as
the inductive type PyVal, and Python exceptions as the inductive type
PyExc, where MultipleItemMatchError is a subclass of APIError.
Floating point confidences are modelled as rationals.
-/

/-- Model of the Python values flowing through the pipeline. -/
inductive PyVal where
  | pyNone
  | pyBool (b : Bool)
  | pyInt (n : Int)
  | pyStr (s : String)
  | pyList (xs : List PyVal)
  | pyDict (d : List (String × PyVal))

open PyVal

mutual

/-- Decidable equality of PyVal, written by hand because the nested
occurrence of List defeats the deriving handler. -/
def pyValDecEq : (a b : PyVal) → Decidable (a = b)
  | pyNone, pyNone => .isTrue rfl
  | pyBool a, pyBool b =>
    if h : a = b then .isTrue (h ▸ rfl)
    else .isFalse (fun e => h (PyVal.noConfusion e id))
  | pyInt a, pyInt b =>
    if h : a = b then .isTrue (h ▸ rfl)
    else .isFalse (fun e => h (PyVal.noConfusion e id))
  | pyStr a, pyStr b =>
    if h : a = b then .isTrue (h ▸ rfl)
    else .isFalse (fun e => h (PyVal.noConfusion e id))
  | pyList xs, pyList ys =>
    match pyValListDecEq xs ys with
    | .isTrue h => .isTrue (h ▸ rfl)
    | .isFalse h => .isFalse (fun e => h (PyVal.noConfusion e id))
  | pyDict d, pyDict e =>
    match pyValDictDecEq d e with
    | .isTrue h => .isTrue (h ▸ rfl)
    | .isFalse h => .isFalse (fun e => h (PyVal.noConfusion e id))
  | pyNone, pyBool _ => .isFalse (fun e => PyVal.noConfusion e)
  | pyNone, pyInt _ => .isFalse (fun e => PyVal.noConfusion e)
  | pyNone, pyStr _ => .isFalse (fun e => PyVal.noConfusion e)
  | pyNone, pyList _ => .isFalse (fun e => PyVal.noConfusion e)
  | pyNone, pyDict _ => .isFalse (fun e => PyVal.noConfusion e)
  | pyBool _, pyNone => .isFalse (fun e => PyVal.noConfusion e)
  | pyBool _, pyInt _ => .isFalse (fun e => PyVal.noConfusion e)
  | pyBool _, pyStr _ => .isFalse (fun e => PyVal.noConfusion e)
  | pyBool _, pyList _ => .isFalse (fun e => PyVal.noConfusion e)
  | pyBool _, pyDict _ => .isFalse (fun e => PyVal.noConfusion e)
  | pyInt _, pyNone => .isFalse (fun e => PyVal.noConfusion e)
  | pyInt _, pyBool _ => .isFalse (fun e => PyVal.noConfusion e)
  | pyInt _, pyStr _ => .isFalse (fun e => PyVal.noConfusion e)
  | pyInt _, pyList _ => .isFalse (fun e => PyVal.noConfusion e)
  | pyInt _, pyDict _ => .isFalse (fun e => PyVal.noConfusion e)
  | pyStr _, pyNone => .isFalse (fun e => PyVal.noConfusion e)
  | pyStr _, pyBool _ => .isFalse (fun e => PyVal.noConfusion e)
  | pyStr _, pyInt _ => .isFalse (fun e => PyVal.noConfusion e)
  | pyStr _, pyList _ => .isFalse (fun e => PyVal.noConfusion e)
  | pyStr _, pyDict _ => .isFalse (fun e => PyVal.noConfusion e)
  | pyList _, pyNone => .isFalse (fun e => PyVal.noConfusion e)
  | pyList _, pyBool _ => .isFalse (fun e => PyVal.noConfusion e)
  | pyList _, pyInt _ => .isFalse (fun e => PyVal.noConfusion e)
  | pyList _, pyStr _ => .isFalse (fun e => PyVal.noConfusion e)
  | pyList _, pyDict _ => .isFalse (fun e => PyVal.noConfusion e)
  | pyDict _, pyNone => .isFalse (fun e => PyVal.noConfusion e)
  | pyDict _, pyBool _ => .isFalse (fun e => PyVal.noConfusion e)
  | pyDict _, pyInt _ => .isFalse (fun e => PyVal.noConfusion e)
  | pyDict _, pyStr _ => .isFalse (fun e => PyVal.noConfusion e)
  | pyDict _, pyList _ => .isFalse (fun e => PyVal.noConfusion e)

/-- Decidable equality of lists of PyVal. -/
def pyValListDecEq : (xs ys : List PyVal) → Decidable (xs = ys)
  | [], [] => .isTrue rfl
  | [], _ :: _ => .isFalse (fun e => List.noConfusion e)
  | _ :: _, [] => .isFalse (fun e => List.noConfusion e)
  | x :: xs, y :: ys =>
    match pyValDecEq x y, pyValListDecEq xs ys with
    | .isTrue h1, .isTrue h2 => .isTrue (by rw [h1, h2])
    | .isFalse h1, _ => .isFalse (fun e => by cases e; exact h1 rfl)
    | _, .isFalse h2 => .isFalse (fun e => by cases e; exact h2 rfl)

/-- Decidable equality of string-keyed association lists of PyVal. -/
def pyValDictDecEq :
    (d e : List (String × PyVal)) → Decidable (d = e)
  | [], [] => .isTrue rfl
  | [], _ :: _ => .isFalse (fun e => List.noConfusion e)
  | _ :: _, [] => .isFalse (fun e => List.noConfusion e)
  | (k, v) :: xs, (k', v') :: ys =>
    match String.decEq k k', pyValDecEq v v', pyValDictDecEq xs ys with
    | .isTrue h1, .isTrue h2, .isTrue h3 => .isTrue (by rw [h1, h2, h3])
    | .isFalse h1, _, _ => .isFalse (fun e => by cases e; exact h1 rfl)
    | _, .isFalse h2, _ => .isFalse (fun e => by cases e; exact h2 rfl)
    | _, _, .isFalse h3 => .isFalse (fun e => by cases e; exact h3 rfl)

end

instance : DecidableEq PyVal := pyValDecEq

/-- Model of the Python exception classes raised by the pipeline.
MultipleItemMatchError is declared in exceptions.py as a subclass of
APIError; except-clauses matching APIError therefore also catch it. -/
inductive PyExc where
  | apiError
  | multipleItemMatch (ids : List Int)
  | keyError
  | valueError
  | typeError
deriving DecidableEq

instance {ε α : Type} [DecidableEq ε] [DecidableEq α] :
    DecidableEq (Except ε α)
  | .ok a, .ok b =>
    if h : a = b then .isTrue (h ▸ rfl)
    else .isFalse (fun e => h (Except.noConfusion e id))
  | .error a, .error b =>
    if h : a = b then .isTrue (h ▸ rfl)
    else .isFalse (fun e => h (Except.noConfusion e id))
  | .ok _, .error _ => .isFalse (fun e => Except.noConfusion e)
  | .error _, .ok _ => .isFalse (fun e => Except.noConfusion e)

/-- An except-clause for (APIError, KeyError), as in resolver.py: it
catches APIError, its subclass MultipleItemMatchError, and KeyError. -/
def PyExc.isApiOrKeyError : PyExc → Bool
  | .apiError => true
  | .multipleItemMatch _ => true
  | .keyError => true
  | _ => false

/-- Python dict lookup d.get(k) on an insertion-ordered association list
(first binding wins). -/
def dictLookup (d : List (String × PyVal)) (k : String) : Option PyVal :=
  match d with
  | [] => none
  | (k', v) :: rest => if k' = k then some v else dictLookup rest k

/-- Python dict assignment d[k] = v: replaces the binding in place if the
key is present, otherwise appends it (insertion order). -/
def dictSet (d : List (String × PyVal)) (k : String) (v : PyVal) :
    List (String × PyVal) :=
  match d with
  | [] => [(k, v)]
  | (k', v') :: rest =>
    if k' = k then (k, v) :: rest else (k', v') :: dictSet rest k v

/-- Python dict d.pop(k): removes the binding for k. -/
def dictRemove (d : List (String × PyVal)) (k : String) :
    List (String × PyVal) :=
  match d with
  | [] => []
  | (k', v') :: rest =>
    if k' = k then rest else (k', v') :: dictRemove rest k

/-- Merging dict entries into a base dict, as the splat in
recipeType-dict-then-metadata does: later keys win. -/
def dictMergeInto (d : List (String × PyVal)) :
    List (String × PyVal) → List (String × PyVal)
  | [] => d
  | (k, v) :: rest => dictMergeInto (dictSet d k v) rest

/-- Generic lookup into a name index modelled as an association list. -/
def lookupIdx {α : Type} (idx : List (String × α)) (k : String) : Option α :=
  match idx with
  | [] => none
  | (k', v) :: rest => if k' = k then some v else lookupIdx rest k

/-- Collapse each run of spaces to a single space, for clean_name. -/
def collapseSpaces : List Char → List Char
  | [] => []
  | c :: rest =>
    if c = ' ' then
      match collapseSpaces rest with
      | [] => [' ']
      | d :: tail => if d = ' ' then d :: tail else ' ' :: d :: tail
    else c :: collapseSpaces rest

/-- api.clean_name: newlines and other whitespace become spaces, runs of
whitespace collapse to a single space, and the ends are stripped. -/
def cleanName (s : String) : String :=
  let mapped := s.data.map (fun c => if c.isWhitespace then ' ' else c)
  let collapsed := collapseSpaces mapped
  let trimmed :=
    ((collapsed.dropWhile (fun c => c = ' ')).reverse.dropWhile
      (fun c => c = ' ')).reverse
  String.mk trimmed

/-- api.resolve_item_name_to_id: cleans the name, looks it up in the item
index; a missing or empty candidate list raises APIError (not found), a
list of two or more candidates raises APIError (the source constructs a
plain APIError here, not a MultipleItemMatchError), a singleton resolves. -/
def resolveItemNameToId (name : String) (idx : List (String × List Int)) :
    Except PyExc Int :=
  match lookupIdx idx (cleanName name) with
  | none => .error .apiError
  | some [] => .error .apiError
  | some [i] => .ok i
  | some (_ :: _ :: _) => .error .apiError

/-- api.resolve_currency_name_to_id: cleans the name and looks it up in
the currency index; absence raises APIError. -/
def resolveCurrencyNameToId (name : String) (idx : List (String × Int)) :
    Except PyExc Int :=
  match lookupIdx idx (cleanName name) with
  | none => .error .apiError
  | some c => .ok c

/-- One entry of a raw-entry ingredient list. -/
structure Ingredient where
  name : String
  quantity : Int
deriving DecidableEq

/-- A raw entry as consumed by classify_and_resolve.  Optional fields of
the Python dict are Options; ingredients and metadata default to the
empty list exactly as entry.get with a default does. -/
structure RawEntry where
  name : String
  wikiSection : String
  wikiSubsection : Option String := none
  confidence : Option ℚ := none
  quantity : Option Int := none
  quantityMin : Option Int := none
  quantityMax : Option Int := none
  ingredients : List Ingredient := []
  metadata : List (String × PyVal) := []
  guaranteed : Option Bool := none
  choice : Option Bool := none
deriving DecidableEq

/-- A resolved requirement or an acquisition record, as a Python dict. -/
abbrev PyDict := List (String × PyVal)

/-- The requirement dict for a resolved currency ingredient. -/
def mkCurrencyReq (c : Int) (q : Int) : PyDict :=
  [("currencyId", pyInt c), ("quantity", pyInt q)]

/-- The requirement dict for a resolved item ingredient. -/
def mkItemReq (i : Int) (q : Int) : PyDict :=
  [("itemId", pyInt i), ("quantity", pyInt q)]

/-- One iteration of the loop of _resolve_ingredient_list: currency
resolution is tried first (errors swallowed); on a miss the item index is
consulted; a MultipleItemMatchError whose candidates contain the current
item id is disambiguated by removing that id when exactly one candidate
remains; otherwise lenient mode yields none (drop the entry) and strict
mode raises ValueError.  Returns ok (some req) when the ingredient
resolves, ok none when the entry must be dropped, error when strict mode
aborts. -/
def resolveIngredientStep (itemIdx : List (String × List Int))
    (currencyIdx : List (String × Int)) (strict : Bool)
    (currentItemId : Int) (ing : Ingredient) : Except PyExc (Option PyDict) :=
  match resolveCurrencyNameToId ing.name currencyIdx with
  | .ok c => .ok (some (mkCurrencyReq c ing.quantity))
  | .error _ =>
    match resolveItemNameToId ing.name itemIdx with
    | .ok i => .ok (some (mkItemReq i ing.quantity))
    | .error (.multipleItemMatch ids) =>
      if currentItemId ∈ ids then
        match ids.filter (fun m => decide (m ≠ currentItemId)) with
        | [r] => .ok (some (mkItemReq r ing.quantity))
        | _ => if strict then .error .valueError else .ok none
      else if strict then .error .valueError else .ok none
    | .error .apiError => if strict then .error .valueError else .ok none
    | .error .keyError => if strict then .error .valueError else .ok none
    | .error e => .error e

/-- _resolve_ingredient_list: resolves the ingredients left to right;
ok none propagates a lenient-mode drop of the whole entry, errors
propagate a strict-mode abort. -/
def resolveIngredientList (itemIdx : List (String × List Int))
    (currencyIdx : List (String × Int)) (strict : Bool)
    (currentItemId : Int) :
    List Ingredient → Except PyExc (Option (List PyDict))
  | [] => .ok (some [])
  | ing :: rest =>
    match resolveIngredientStep itemIdx currencyIdx strict currentItemId ing with
    | .error e => .error e
    | .ok none => .ok none
    | .ok (some r) =>
      match resolveIngredientList itemIdx currencyIdx strict currentItemId rest with
      | .error e => .error e
      | .ok none => .ok none
      | .ok (some rs) => .ok (some (r :: rs))

/-- Appends outputQuantityMin and outputQuantityMax to an acquisition
dict when the entry carries them, as the tail of the recipe,
gathered_from and contained_in branches does. -/
def addQtyRange (e : RawEntry) (acq : PyDict) : PyDict :=
  let acq1 := match e.quantityMin with
    | some m => dictSet acq "outputQuantityMin" (pyInt m)
    | none => acq
  match e.quantityMax with
  | some m => dictSet acq1 "outputQuantityMax" (pyInt m)
  | none => acq1

/-- Container-name resolution shared by the gathered_from container
branch and contained_in: tries the name-with-container-suffix variant
when the index has it, else the bare name; a resolution failure (always
an APIError-class or KeyError exception, all caught) leaves the dict
without an itemId. -/
def addContainerItemId (itemIdx : List (String × List Int)) (name : String)
    (acq : PyDict) : PyDict :=
  let containerVariant := name ++ " (container)"
  let resolveName :=
    if (lookupIdx itemIdx (cleanName containerVariant)).isSome then
      containerVariant
    else name
  match resolveItemNameToId resolveName itemIdx with
  | .ok i => dictSet acq "itemId" (pyInt i)
  | .error _ => acq

/-- _classify_entry: maps one raw entry to at most one acquisition dict
(ok none models a dropped entry, error a strict-mode abort).  Salvage
entries keep their full candidate list under the itemIds key; the
fan-out happens in classifyAndResolve. -/
def classifyEntry (e : RawEntry) (itemIdx : List (String × List Int))
    (currencyIdx : List (String × Int)) (gatheringNodeIdx : List String)
    (strict : Bool) (currentItemId : Int) : Except PyExc (Option PyDict) :=
  let q := e.quantity.getD 1
  if e.wikiSection = "recipe" then
    let acqType := if e.wikiSubsection = some "mystic_forge" then
      "mystic_forge" else "crafting"
    match resolveIngredientList itemIdx currencyIdx strict currentItemId
        e.ingredients with
    | .error ex => .error ex
    | .ok none => .ok none
    | .ok (some reqs) =>
      .ok (some (addQtyRange e
        [("type", pyStr acqType),
         ("outputQuantity", pyInt q),
         ("requirements", pyList (reqs.map pyDict)),
         ("metadata",
           pyDict (dictMergeInto [("recipeType", pyStr acqType)] e.metadata))]))
  else if e.wikiSection = "vendor" then
    match resolveIngredientList itemIdx currencyIdx strict currentItemId
        e.ingredients with
    | .error ex => .error ex
    | .ok none => .ok none
    | .ok (some reqs) =>
      .ok (some
        [("type", pyStr "vendor"),
         ("vendorName", pyStr e.name),
         ("outputQuantity", pyInt q),
         ("requirements", pyList (reqs.map pyDict)),
         ("metadata", pyDict e.metadata)])
  else if e.wikiSection = "gathered_from" then
    let acq :=
      if gatheringNodeIdx.contains (cleanName e.name) then
        [("type", pyStr "resource_node"),
         ("nodeName", pyStr e.name),
         ("outputQuantity", pyInt q),
         ("requirements", pyList []),
         ("metadata", pyDict e.metadata)]
      else
        addContainerItemId itemIdx e.name
          [("type", pyStr "container"),
           ("containerName", pyStr e.name),
           ("outputQuantity", pyInt q),
           ("requirements", pyList []),
           ("metadata", pyDict e.metadata)]
    let acq := match e.guaranteed with
      | some g => dictSet acq "guaranteed" (pyBool g)
      | none => acq
    let acq := match e.choice with
      | some c => dictSet acq "choice" (pyBool c)
      | none => acq
    if dictLookup acq "guaranteed" = some (pyBool false) ∧
        dictLookup acq "choice" = some (pyBool false) then
      .ok none
    else
      .ok (some (addQtyRange e acq))
  else if e.wikiSection = "contained_in" then
    if e.wikiSubsection = some "chance" then
      .ok none
    else
      let acq :=
        [("type", pyStr "container"),
         ("containerName", pyStr e.name),
         ("outputQuantity", pyInt q),
         ("requirements", pyList []),
         ("metadata", pyDict e.metadata)]
      if e.wikiSubsection = some "guaranteed" then
        .ok (some (addQtyRange e
          (addContainerItemId itemIdx e.name
            (dictSet acq "guaranteed" (pyBool true)))))
      else if e.wikiSubsection = some "inline" then
        let acq := match e.guaranteed with
          | some g => dictSet acq "guaranteed" (pyBool g)
          | none => acq
        let acq := match e.choice with
          | some c => dictSet acq "choice" (pyBool c)
          | none => acq
        if dictLookup acq "guaranteed" = some (pyBool false) ∧
            dictLookup acq "choice" = some (pyBool false) then
          .ok none
        else
          .ok (some (addQtyRange e (addContainerItemId itemIdx e.name acq)))
      else
        .ok (some (addQtyRange e (addContainerItemId itemIdx e.name acq)))
  else if e.wikiSection = "salvaged_from" then
    if e.guaranteed ≠ some true then
      .ok none
    else
      match lookupIdx itemIdx (cleanName e.name) with
      | none => if strict then .error .valueError else .ok none
      | some [] => if strict then .error .valueError else .ok none
      | some (m :: ms) =>
        let acq :=
          [("type", pyStr "salvage"),
           ("itemIds", pyList ((m :: ms).map pyInt)),
           ("outputQuantity", pyInt q),
           ("requirements", pyList []),
           ("metadata", pyDict e.metadata)]
        match e.guaranteed with
        | some g => .ok (some (dictSet acq "guaranteed" (pyBool g)))
        | none => .ok (some acq)
  else if e.wikiSection = "achievement" then
    .ok (some
      [("type", pyStr "achievement"),
       ("achievementName", pyStr e.name),
       ("achievementCategory",
         (dictLookup e.metadata "achievementCategory").getD pyNone),
       ("outputQuantity", pyInt q),
       ("requirements", pyList []),
       ("metadata",
         pyDict (e.metadata.filter
           (fun kv => decide (kv.1 ≠ "achievementCategory"))))])
  else if e.wikiSection = "reward_track" then
    let acqType :=
      if e.wikiSubsection = some "wvw" then "wvw_reward"
      else if e.wikiSubsection = some "pvp" then "pvp_reward"
      else "wvw_reward"
    .ok (some
      [("type", pyStr acqType),
       ("trackName", pyStr e.name),
       ("outputQuantity", pyInt q),
       ("requirements", pyList []),
       ("metadata", pyDict e.metadata)])
  else if e.wikiSection = "map_reward" then
    .ok (some
      [("type", pyStr "map_reward"),
       ("outputQuantity", pyInt q),
       ("requirements", pyList []),
       ("metadata", pyDict e.metadata)])
  else if e.wikiSection = "wizards_vault" then
    match resolveIngredientList itemIdx currencyIdx strict currentItemId
        e.ingredients with
    | .error ex => .error ex
    | .ok none => .ok none
    | .ok (some reqs) =>
      .ok (some
        [("type", pyStr "wizards_vault"),
         ("outputQuantity", pyInt q),
         ("requirements", pyList (reqs.map pyDict)),
         ("metadata", pyDict e.metadata)])
  else if e.wikiSection = "other" then
    .ok (some
      [("type", pyStr "other"),
       ("outputQuantity", pyInt q),
       ("requirements", pyList []),
       ("metadata", pyDict e.metadata)])
  else
    .ok none

/-- The salvage fan-out at the tail of the classify_and_resolve loop: a
salvage acquisition has its itemIds popped and one acquisition per
candidate id is emitted, with the id appended under itemId; every other
acquisition is emitted unchanged. -/
def emitAcq (acq : PyDict) : Except PyExc (List PyDict) :=
  if dictLookup acq "type" = some (pyStr "salvage") then
    match dictLookup acq "itemIds" with
    | some (pyList ids) =>
      .ok (ids.map (fun v => dictSet (dictRemove acq "itemIds") "itemId" v))
    | some _ => .error .typeError
    | none => .error .keyError
  else
    .ok [acq]

/-- The 0.8 confidence threshold of classify_and_resolve, as the
rational 4/5 in lowest terms (written with an explicit numerator and
denominator so that comparisons against it evaluate by kernel
reduction). -/
def confidenceThreshold : ℚ := ⟨4, 5, by decide, by decide⟩

/-- classify_and_resolve: filters out entries below the 0.8 confidence
threshold (a missing confidence defaults to 0.0), classifies the rest,
drops entries classified to none, and fans out salvage acquisitions. -/
def classifyAndResolve (itemIdx : List (String × List Int))
    (currencyIdx : List (String × Int)) (gatheringNodeIdx : List String)
    (strict : Bool) (currentItemId : Int) :
    List RawEntry → Except PyExc (List PyDict)
  | [] => .ok []
  | e :: rest =>
    if e.confidence.getD 0 < confidenceThreshold then
      classifyAndResolve itemIdx currencyIdx gatheringNodeIdx strict
        currentItemId rest
    else
      match classifyEntry e itemIdx currencyIdx gatheringNodeIdx strict
          currentItemId with
      | .error ex => .error ex
      | .ok none =>
        classifyAndResolve itemIdx currencyIdx gatheringNodeIdx strict
          currentItemId rest
      | .ok (some acq) =>
        match emitAcq acq with
        | .error ex => .error ex
        | .ok emitted =>
          match classifyAndResolve itemIdx currencyIdx gatheringNodeIdx
              strict currentItemId rest with
          | .error ex => .error ex
          | .ok acqs => .ok (emitted ++ acqs)

mutual

/-- Python equality as used while comparing tuples and lists: values of
unrelated types compare unequal without error, True equals 1 and False
equals 0, lists compare elementwise.  Dicts are compared as ordered
association lists (the pipeline never produces two equal dicts with
different insertion orders). -/
def pyEq : PyVal → PyVal → Bool
  | pyNone, pyNone => true
  | pyBool a, pyBool b => a = b
  | pyBool a, pyInt n => (if a then (1 : Int) else 0) = n
  | pyInt n, pyBool a => n = (if a then (1 : Int) else 0)
  | pyInt m, pyInt n => m = n
  | pyStr s, pyStr t => s = t
  | pyList xs, pyList ys => pyEqList xs ys
  | pyDict d, pyDict e => pyEqDict d e
  | _, _ => false

/-- Elementwise Python equality of lists. -/
def pyEqList : List PyVal → List PyVal → Bool
  | [], [] => true
  | x :: xs, y :: ys => pyEq x y && pyEqList xs ys
  | _, _ => false

/-- Python equality of dicts, as ordered association lists. -/
def pyEqDict : List (String × PyVal) → List (String × PyVal) → Bool
  | [], [] => true
  | (k, v) :: xs, (k', v') :: ys => k = k' && pyEq v v' && pyEqDict xs ys
  | _, _ => false

end

/-- Lexicographic comparison of character lists by code point, the
order Python uses on strings. -/
def charListLt : List Char → List Char → Bool
  | [], [] => false
  | [], _ :: _ => true
  | _ :: _, [] => false
  | c :: cs, d :: ds =>
    if c = d then charListLt cs ds else decide (c.toNat < d.toNat)

/-- Python string less-than: lexicographic by code point. -/
def pyStrLt (s t : String) : Bool := charListLt s.data t.data

mutual

/-- The Python less-than used by sorted() on sort keys: numbers (bools
count as 0 and 1) and strings compare within their own type, lists and
tuples compare lexicographically, and every other combination raises
TypeError. -/
def pyLt : PyVal → PyVal → Except PyExc Bool
  | pyInt m, pyInt n => .ok (decide (m < n))
  | pyInt m, pyBool b => .ok (decide (m < if b then 1 else 0))
  | pyBool a, pyInt n => .ok (decide ((if a then (1 : Int) else 0) < n))
  | pyBool a, pyBool b => .ok (decide ((if a then (1 : Int) else 0) < if b then 1 else 0))
  | pyStr s, pyStr t => .ok (pyStrLt s t)
  | pyList xs, pyList ys => pyLtList xs ys
  | _, _ => .error .typeError

/-- Lexicographic Python less-than of lists and tuples: walk the common
prefix to the first non-equal pair and compare there; a strict prefix is
smaller. -/
def pyLtList : List PyVal → List PyVal → Except PyExc Bool
  | [], [] => .ok false
  | [], _ :: _ => .ok true
  | _ :: _, [] => .ok false
  | x :: xs, y :: ys => if pyEq x y then pyLtList xs ys else pyLt x y

end

/-- Python truthiness, for the discontinued flag of the sort key. -/
def pyTruthy : PyVal → Bool
  | pyNone => false
  | pyBool b => b
  | pyInt n => n ≠ 0
  | pyStr s => s ≠ ""
  | pyList xs => xs ≠ []
  | pyDict d => d ≠ []

/-- ACQUISITION_TYPE_ORDER of sorter.py. -/
def ACQUISITION_TYPE_ORDER : List String :=
  ["crafting",
   "mystic_forge",
   "vendor",
   "achievement",
   "container",
   "salvage",
   "map_reward",
   "wvw_reward",
   "pvp_reward",
   "wizards_vault",
   "story"]

/-- One step of a parsed dot-notation field path: a dict field name or a
list index. -/
inductive PathKey where
  | fld (s : String)
  | idx (n : Nat)
deriving DecidableEq

open PathKey

/-- ACQUISITION_SORT_FIELDS of sorter.py, with each dot-notation path
stored in the form _parse_field_path produces, so the path
metadata.minRating appears as fld metadata, fld minRating and the path
with the bracketed index zero on disciplines appears as fld metadata,
fld disciplines, idx 0. -/
def ACQUISITION_SORT_FIELDS : List (String × List (List PathKey)) :=
  [("crafting",
     [[fld "metadata", fld "minRating"],
      [fld "metadata", fld "disciplines", idx 0]]),
   ("mystic_forge", []),
   ("vendor",
     [[fld "vendorName"]]),
   ("achievement",
     [[fld "metadata", fld "achievementName"]]),
   ("container",
     [[fld "metadata", fld "guaranteed"],
      [fld "metadata", fld "containerItemId"]]),
   ("salvage",
     [[fld "metadata", fld "guaranteed"],
      [fld "metadata", fld "sourceItemId"]]),
   ("map_reward",
     [[fld "metadata", fld "rewardType"],
      [fld "metadata", fld "regionName"]]),
   ("wvw_reward",
     [[fld "metadata", fld "trackName"]]),
   ("pvp_reward",
     [[fld "metadata", fld "trackName"]]),
   ("wizards_vault",
     [[fld "metadata", fld "seasonal"]]),
   ("story",
     [[fld "metadata", fld "expansion"],
      [fld "metadata", fld "storyChapter"]])]

/-- The boolean-negation whitelist of _get_sort_key, which names the
paths metadata.guaranteed and metadata.seasonal. -/
def isNegatedBoolPath (p : List PathKey) : Bool :=
  p = [fld "metadata", fld "guaranteed"] ∨ p = [fld "metadata", fld "seasonal"]

/-- The walk of _extract_field_value: dict steps use get (an integer key
misses), list steps index when in range, any other combination and any
None intermediate value yield None. -/
def extractFieldStep : PyVal → List PathKey → Option PyVal
  | v, [] => some v
  | v, k :: rest =>
    let next : Option PyVal :=
      match v, k with
      | pyDict d, .fld s => dictLookup d s
      | pyDict _, .idx _ => none
      | pyList xs, .idx i => xs.get? i
      | _, _ => none
    match next with
    | none => none
    | some pyNone => none
    | some w => extractFieldStep w rest

/-- _extract_field_value on an acquisition dict. -/
def extractFieldValue (acq : PyDict) (p : List PathKey) : Option PyVal :=
  extractFieldStep (pyDict acq) p

/-- Position of a string in a list, as list.index computes it (the
ValueError of a missing entry is the none case). -/
def listIndexOf (t : String) : List String → Option Nat
  | [] => none
  | s :: rest => if s = t then some 0 else (listIndexOf t rest).map (· + 1)

/-- The type-priority computation of _get_sort_key: position in
ACQUISITION_TYPE_ORDER, or 999 when the type is not listed. -/
def typePriority (t : String) : Nat :=
  match listIndexOf t ACQUISITION_TYPE_ORDER with
  | some i => i
  | none => 999

/-- One secondary sort value of _get_sort_key: the extracted field value,
the empty string when missing, with booleans negated on the whitelisted
paths. -/
def secondaryValue (acq : PyDict) (p : List PathKey) : PyVal :=
  let v := (extractFieldValue acq p).getD (pyStr "")
  if isNegatedBoolPath p then
    match v with
    | pyBool b => pyBool (!b)
    | w => w
  else v

/-- _get_sort_key: the tuple of type priority, secondary field values,
discontinued flag and output quantity, modelled as a Python list (tuple
and list comparison coincide).  A missing type key raises KeyError; an
unhashable type value raises TypeError at the sort-fields lookup. -/
def getSortKey (acq : PyDict) : Except PyExc PyVal :=
  match dictLookup acq "type" with
  | none => .error .keyError
  | some tv =>
    let discontinued : Int :=
      match dictLookup acq "discontinued" with
      | none => 0
      | some v => if pyTruthy v then 1 else 0
    let outputQty := (dictLookup acq "outputQuantity").getD (pyInt 1)
    match tv with
    | pyStr t =>
      let fields := (lookupIdx ACQUISITION_SORT_FIELDS t).getD []
      .ok (pyList
        [pyInt (typePriority t),
         pyList (fields.map (secondaryValue acq)),
         pyInt discontinued,
         outputQty])
    | pyNone =>
      .ok (pyList [pyInt 999, pyList [], pyInt discontinued, outputQty])
    | pyBool _ =>
      .ok (pyList [pyInt 999, pyList [], pyInt discontinued, outputQty])
    | pyInt _ =>
      .ok (pyList [pyInt 999, pyList [], pyInt discontinued, outputQty])
    | _ => .error .typeError

/-- req_sort_key of sort_requirements: the pair of zero-for-item or
one-for-currency and the stored id (a requirement that is not a dict
raises TypeError at the key-containment test). -/
def reqSortKey : PyVal → Except PyExc PyVal
  | pyDict d =>
    .ok (pyList
      [pyInt (if (dictLookup d "itemId").isSome then 0 else 1),
       ((dictLookup d "itemId").getD
         ((dictLookup d "currencyId").getD (pyInt 0)))])
  | _ => .error .typeError

/-- Insertion of an element into a sorted prefix using a strict
less-than that can raise: the element goes before the first entry it is
strictly smaller than, hence after all entries equal to it, which is
exactly the stable placement of Python sorted. -/
def insertE {α : Type} (lt : α → α → Except PyExc Bool) (a : α) :
    List α → Except PyExc (List α)
  | [] => .ok [a]
  | b :: bs =>
    match lt a b with
    | .error e => .error e
    | .ok true => .ok (a :: b :: bs)
    | .ok false =>
      match insertE lt a bs with
      | .error e => .error e
      | .ok r => .ok (b :: r)

/-- Stable insertion sort with a strict less-than that can raise,
processing the input left to right. -/
def isortE {α : Type} (lt : α → α → Except PyExc Bool) :
    List α → List α → Except PyExc (List α)
  | [], acc => .ok acc
  | a :: as, acc =>
    match insertE lt a acc with
    | .error e => .error e
    | .ok acc' => isortE lt as acc'

/-- The monadic map modelling a Python loop that can raise. -/
def mapME {α β : Type} (f : α → Except PyExc β) :
    List α → Except PyExc (List β)
  | [] => .ok []
  | a :: as =>
    match f a with
    | .error e => .error e
    | .ok b =>
      match mapME f as with
      | .error e => .error e
      | .ok bs => .ok (b :: bs)

/-- Pairing an element with its computed sort key, the decoration step
of Python sorted(xs, key=keyF). -/
def keyPairE {α : Type} (keyF : α → Except PyExc PyVal) (a : α) :
    Except PyExc (α × PyVal) :=
  match keyF a with
  | .error e => .error e
  | .ok k => .ok (a, k)

/-- Comparison of decorated elements by their keys. -/
def ltOnKey {α : Type} (p q : α × PyVal) : Except PyExc Bool :=
  pyLt p.2 q.2

/-- Python sorted(xs, key=keyF): the keys are computed first, left to
right, then the list is stably sorted by comparing keys with the Python
less-than. -/
def sortByKeyE {α : Type} (keyF : α → Except PyExc PyVal) (xs : List α) :
    Except PyExc (List α) :=
  match mapME (keyPairE keyF) xs with
  | .error e => .error e
  | .ok pairs =>
    match isortE ltOnKey pairs [] with
    | .error e => .error e
    | .ok sorted => .ok (sorted.map Prod.fst)

/-- sort_requirements: sorts a requirements list by req_sort_key (items
first, then currencies, each ascending by id when the ids are
comparable). -/
def sortRequirements : PyVal → Except PyExc PyVal
  | pyList rs =>
    match sortByKeyE reqSortKey rs with
    | .error e => .error e
    | .ok rs' => .ok (pyList rs')
  | _ => .error .typeError

/-- The per-acquisition copy step of sort_acquisitions: when the dict
has a requirements key its value is replaced by the sorted list,
otherwise the dict passes through unchanged. -/
def resortReqs (acq : PyDict) : Except PyExc PyDict :=
  match dictLookup acq "requirements" with
  | none => .ok acq
  | some v =>
    match sortRequirements v with
    | .error e => .error e
    | .ok v' => .ok (dictSet acq "requirements" v')

/-- sort_acquisitions: resorts each acquisition's requirements, then
stably sorts the acquisitions by _get_sort_key. -/
def sortAcquisitions (acqs : List PyDict) : Except PyExc (List PyDict) :=
  match mapME resortReqs acqs with
  | .error e => .error e
  | .ok copies => sortByKeyE getSortKey copies

/-- The boolean reading of a comparison that can raise, false on error;
on inputs where the comparison succeeds this is its value. -/
def ltEx {α : Type} (lt : α → α → Except PyExc Bool) (a b : α) : Bool :=
  match lt a b with
  | .ok c => c
  | .error _ => false

/-- Pure shadow of insertE for inputs whose comparisons all succeed. -/
def insertP {α : Type} (ltb : α → α → Bool) (a : α) : List α → List α
  | [] => [a]
  | b :: bs => if ltb a b then a :: b :: bs else b :: insertP ltb a bs

/-- Pure shadow of isortE. -/
def isortP {α : Type} (ltb : α → α → Bool) : List α → List α → List α
  | [], acc => acc
  | a :: as, acc => isortP ltb as (insertP ltb a acc)

section SortTheory

variable {α : Type} {lt : α → α → Except PyExc Bool} {ltb : α → α → Bool}

theorem mem_insertP {a x : α} {l : List α} :
    x ∈ insertP ltb a l ↔ x = a ∨ x ∈ l := by
  induction l with
  | nil => simp [insertP]
  | cons b bs ih =>
    by_cases h : ltb a b
    · simp [insertP, h, ih]
    · simp [insertP, h, ih]
      tauto

theorem insertP_perm (a : α) (l : List α) :
    List.Perm (insertP ltb a l) (a :: l) := by
  induction l with
  | nil => simp [insertP]
  | cons b bs ih =>
    by_cases h : ltb a b
    · simp [insertP, h]
    · simp only [insertP, h, if_neg]
      exact (ih.cons b).trans (List.Perm.swap a b bs)

theorem isortP_perm (l acc : List α) :
    List.Perm (isortP ltb l acc) (l ++ acc) := by
  induction l generalizing acc with
  | nil => simp [isortP]
  | cons a as ih =>
    have h1 : List.Perm (isortP ltb as (insertP ltb a acc))
        (as ++ insertP ltb a acc) := ih _
    have h2 : List.Perm (as ++ insertP ltb a acc) (as ++ a :: acc) :=
      List.Perm.append_left as (insertP_perm a acc)
    have h3 : List.Perm (as ++ a :: acc) (a :: (as ++ acc)) :=
      List.perm_middle
    exact (h1.trans h2).trans h3

theorem insertE_eq_insertP {a : α} {l : List α}
    (h : ∀ b ∈ l, ∃ c, lt a b = .ok c) :
    insertE lt a l = .ok (insertP (ltEx lt) a l) := by
  induction l with
  | nil => simp [insertE, insertP]
  | cons b bs ih =>
    obtain ⟨c, hc⟩ := h b (by simp)
    have hrest := ih (fun x hx => h x (by simp [hx]))
    cases c <;>
      simp [insertE, insertP, hc, ltEx, hrest]

theorem isortE_eq_isortP (l acc : List α)
    (h : ∀ a ∈ l, ∀ b, b ∈ l ∨ b ∈ acc → ∃ c, lt a b = .ok c) :
    isortE lt l acc = .ok (isortP (ltEx lt) l acc) := by
  induction l generalizing acc with
  | nil => simp [isortE, isortP]
  | cons a as ih =>
    have hins : insertE lt a acc = .ok (insertP (ltEx lt) a acc) :=
      insertE_eq_insertP (fun b hb => h a (by simp) b (Or.inr hb))
    have hrec := ih (insertP (ltEx lt) a acc)
      (fun x hx b hb => by
        refine h x (by simp [hx]) b ?_
        rcases hb with hb | hb
        · exact Or.inl (by simp [hb])
        · rcases mem_insertP.mp hb with hb | hb
          · exact Or.inl (by simp [hb])
          · exact Or.inr hb)
    simp [isortE, hins, hrec, isortP]

theorem insertP_sorted {S : α → Prop} {a : α} {l : List α}
    (hasym : ∀ x y, S x → S y → ltb x y = true → ltb y x = false)
    (htrans : ∀ x y z, S x → S y → S z →
      ltb x y = true → ltb y z = true → ltb x z = true)
    (hSa : S a) (hSl : ∀ x ∈ l, S x)
    (hl : l.Pairwise (fun x y => ltb y x = false)) :
    (insertP ltb a l).Pairwise (fun x y => ltb y x = false) := by
  induction l with
  | nil => simp [insertP]
  | cons b bs ih =>
    have hSb : S b := hSl b (by simp)
    have hSbs : ∀ x ∈ bs, S x := fun x hx => hSl x (by simp [hx])
    rcases List.pairwise_cons.mp hl with ⟨hb, hbs⟩
    by_cases hc : ltb a b = true
    · simp only [insertP, hc, if_pos]
      refine List.pairwise_cons.mpr ⟨?_, hl⟩
      intro y hy
      rcases List.mem_cons.mp hy with rfl | hy
      · exact hasym a y hSa hSb hc
      · by_contra hya
        have hya' : ltb y a = true := by
          cases h : ltb y a
          · exact absurd h hya
          · rfl
        have : ltb y b = true :=
          htrans y a b (hSbs y hy) hSa hSb hya' hc
        rw [hb y hy] at this
        exact Bool.false_ne_true this
    · have hc' : ltb a b = false := by
        cases h : ltb a b
        · rfl
        · exact absurd h hc
      simp only [insertP, hc, if_neg, Bool.false_eq_true, not_false_iff]
      refine List.pairwise_cons.mpr ⟨?_, ih hSbs hbs⟩
      intro y hy
      rcases mem_insertP.mp hy with rfl | hy
      · exact hc'
      · exact hb y hy

theorem isortP_sorted {S : α → Prop} {l acc : List α}
    (hasym : ∀ x y, S x → S y → ltb x y = true → ltb y x = false)
    (htrans : ∀ x y z, S x → S y → S z →
      ltb x y = true → ltb y z = true → ltb x z = true)
    (hSl : ∀ x ∈ l, S x) (hSacc : ∀ x ∈ acc, S x)
    (hacc : acc.Pairwise (fun x y => ltb y x = false)) :
    (isortP ltb l acc).Pairwise (fun x y => ltb y x = false) := by
  induction l generalizing acc with
  | nil => simpa [isortP] using hacc
  | cons a as ih =>
    have hSa : S a := hSl a (by simp)
    have hSas : ∀ x ∈ as, S x := fun x hx => hSl x (by simp [hx])
    refine ih hSas ?_ (insertP_sorted hasym htrans hSa hSacc hacc)
    intro x hx
    rcases mem_insertP.mp hx with rfl | hx
    · exact hSa
    · exact hSacc x hx

theorem sorted_perm_eq {S : α → Prop} :
    ∀ {l1 l2 : List α}, List.Perm l1 l2 →
    l1.Pairwise (fun x y => ltb y x = false) →
    l2.Pairwise (fun x y => ltb y x = false) →
    (∀ x ∈ l1, S x) →
    (∀ x y, S x → S y → x ≠ y → ltb x y = true ∨ ltb y x = true) →
    l1 = l2 := by
  intro l1
  induction l1 with
  | nil =>
    intro l2 hperm _ _ _ _
    exact (hperm.symm.eq_nil).symm
  | cons a t1 ih =>
    intro l2 hperm h1 h2 hS htot
    cases l2 with
    | nil => exact absurd hperm.eq_nil (by simp)
    | cons b t2 =>
      rcases List.pairwise_cons.mp h1 with ⟨ha1, ht1⟩
      rcases List.pairwise_cons.mp h2 with ⟨hb2, ht2⟩
      by_cases hab : a = b
      · subst hab
        have htail := hperm.cons_inv
        have : t1 = t2 := ih htail ht1 ht2
          (fun x hx => hS x (by simp [hx])) htot
        rw [this]
      · exfalso
        have haInt2 : a ∈ t2 := by
          have := hperm.subset (List.mem_cons_self a t1)
          rcases List.mem_cons.mp this with h | h
          · exact absurd h hab
          · exact h
        have hbInt1 : b ∈ t1 := by
          have := hperm.symm.subset (List.mem_cons_self b t2)
          rcases List.mem_cons.mp this with h | h
          · exact absurd h.symm hab
          · exact h
        have h3 : ltb a b = false := hb2 a haInt2
        have h4 : ltb b a = false := ha1 b hbInt1
        rcases htot a b (hS a (by simp))
            (hS b (by simp [hbInt1])) hab with h | h
        · rw [h3] at h; exact Bool.false_ne_true h
        · rw [h4] at h; exact Bool.false_ne_true h

/-- The central stable-sort fact: two permutations of the same input,
whose comparisons all succeed and whose boolean comparison is
asymmetric, transitive and total on distinct elements of the input,
sort to the same list. -/
theorem isortE_eq_of_perm {l1 l2 : List α}
    (hperm : List.Perm l1 l2)
    (hok : ∀ p ∈ l2, ∀ q ∈ l2, ∃ c, lt p q = .ok c)
    (hasym : ∀ p ∈ l2, ∀ q ∈ l2,
      ltEx lt p q = true → ltEx lt q p = false)
    (htrans : ∀ p ∈ l2, ∀ q ∈ l2, ∀ r ∈ l2,
      ltEx lt p q = true → ltEx lt q r = true → ltEx lt p r = true)
    (htot : ∀ p ∈ l2, ∀ q ∈ l2, p ≠ q →
      ltEx lt p q = true ∨ ltEx lt q p = true) :
    isortE lt l1 [] = isortE lt l2 [] := by
  have hmem1 : ∀ x ∈ l1, x ∈ l2 := fun x hx => hperm.subset hx
  have h1 : isortE lt l1 [] = .ok (isortP (ltEx lt) l1 []) :=
    isortE_eq_isortP l1 [] (fun a ha b hb => by
      rcases hb with hb | hb
      · exact hok a (hmem1 a ha) b (hmem1 b hb)
      · simp at hb)
  have h2 : isortE lt l2 [] = .ok (isortP (ltEx lt) l2 []) :=
    isortE_eq_isortP l2 [] (fun a ha b hb => by
      rcases hb with hb | hb
      · exact hok a ha b hb
      · simp at hb)
  rw [h1, h2]
  have hperm1 : List.Perm (isortP (ltEx lt) l1 []) l1 := by
    simpa using @isortP_perm _ (ltEx lt) l1 []
  have hperm2 : List.Perm (isortP (ltEx lt) l2 []) l2 := by
    simpa using @isortP_perm _ (ltEx lt) l2 []
  have hS : α → Prop := fun x => x ∈ l2
  have hs1 : (isortP (ltEx lt) l1 []).Pairwise
      (fun x y => ltEx lt y x = false) :=
    isortP_sorted (S := fun x => x ∈ l2)
      (fun x y hx hy => hasym x hx y hy)
      (fun x y z hx hy hz => htrans x hx y hy z hz)
      hmem1 (by simp) (by simp)
  have hs2 : (isortP (ltEx lt) l2 []).Pairwise
      (fun x y => ltEx lt y x = false) :=
    isortP_sorted (S := fun x => x ∈ l2)
      (fun x y hx hy => hasym x hx y hy)
      (fun x y z hx hy hz => htrans x hx y hy z hz)
      (fun x hx => hx) (by simp) (by simp)
  have heq : isortP (ltEx lt) l1 [] = isortP (ltEx lt) l2 [] :=
    sorted_perm_eq (S := fun x => x ∈ l2)
      (hperm1.trans (hperm.trans hperm2.symm)) hs1 hs2
      (fun x hx => hmem1 x (hperm1.subset hx))
      (fun x y hx hy hxy => htot x hx y hy hxy)
  rw [heq]

theorem mapME_perm {β : Type} {f : α → Except PyExc β} :
    ∀ {l1 l2 : List α}, List.Perm l1 l2 → ∀ {r1 : List β},
    mapME f l1 = .ok r1 →
    ∃ r2, mapME f l2 = .ok r2 ∧ List.Perm r1 r2 := by
  intro l1 l2 hperm
  induction hperm with
  | nil =>
    intro r1 h
    exact ⟨r1, h, List.Perm.refl r1⟩
  | cons a h ih =>
    intro r1 hr
    rename_i t1 t2
    simp only [mapME] at hr
    cases hfa : f a with
    | error e => rw [hfa] at hr; exact absurd hr (by simp)
    | ok b =>
      rw [hfa] at hr
      cases hrest : mapME f t1 with
      | error e => rw [hrest] at hr; exact absurd hr (by simp)
      | ok s1 =>
        rw [hrest] at hr
        obtain ⟨s2, hs2, hp⟩ := ih hrest
        have hr' : r1 = b :: s1 := by cases hr; rfl
        refine ⟨b :: s2, by simp [mapME, hfa, hs2], ?_⟩
        rw [hr']
        exact hp.cons b
  | swap a b l =>
    intro r1 hr
    simp only [mapME] at hr ⊢
    cases hfb : f b with
    | error e => rw [hfb] at hr; exact absurd hr (by simp)
    | ok vb =>
      rw [hfb] at hr
      cases hfa : f a with
      | error e => rw [hfa] at hr; exact absurd hr (by simp)
      | ok va =>
        rw [hfa] at hr
        cases hrest : mapME f l with
        | error e => rw [hrest] at hr; exact absurd hr (by simp)
        | ok s =>
          rw [hrest] at hr
          have : r1 = vb :: va :: s := by cases hr; rfl
          refine ⟨va :: vb :: s, by simp [hfa, hfb, hrest], ?_⟩
          rw [this]
          exact List.Perm.swap va vb s
  | trans h12 h23 ih12 ih23 =>
    intro r1 hr
    obtain ⟨r2, hr2, hp12⟩ := ih12 hr
    obtain ⟨r3, hr3, hp23⟩ := ih23 hr2
    exact ⟨r3, hr3, hp12.trans hp23⟩

theorem mapME_ok_forall {β : Type} {f : α → Except PyExc β} :
    ∀ {l : List α} {r : List β}, mapME f l = .ok r →
    ∀ a ∈ l, ∃ b, f a = .ok b := by
  intro l
  induction l with
  | nil => intro r _ a ha; simp at ha
  | cons x xs ih =>
    intro r hr a ha
    simp only [mapME] at hr
    cases hfx : f x with
    | error e => rw [hfx] at hr; exact absurd hr (by simp)
    | ok b =>
      rw [hfx] at hr
      cases hrest : mapME f xs with
      | error e => rw [hrest] at hr; exact absurd hr (by simp)
      | ok s =>
        rcases List.mem_cons.mp ha with rfl | ha
        · exact ⟨b, hfx⟩
        · exact ih hrest a ha

theorem mapME_keyPairE_fst {keyF : α → Except PyExc PyVal} :
    ∀ {l : List α} {pr : List (α × PyVal)},
    mapME (keyPairE keyF) l = .ok pr → pr.map Prod.fst = l := by
  intro l
  induction l with
  | nil => intro pr h; simp [mapME] at h; simp [← h]
  | cons x xs ih =>
    intro pr h
    simp only [mapME, keyPairE] at h
    cases hk : keyF x with
    | error e => rw [hk] at h; exact absurd h (by simp)
    | ok k =>
      rw [hk] at h
      cases hrest : mapME (keyPairE keyF) xs with
      | error e => rw [hrest] at h; exact absurd h (by simp)
      | ok s =>
        rw [hrest] at h
        have : pr = (x, k) :: s := by cases h; rfl
        rw [this]
        simp [ih hrest]

theorem insertE_ok_perm {a : α} :
    ∀ {l r : List α}, insertE lt a l = .ok r →
    List.Perm r (a :: l) := by
  intro l
  induction l with
  | nil => intro r h; simp [insertE] at h; simp [← h]
  | cons b bs ih =>
    intro r h
    simp only [insertE] at h
    cases hc : lt a b with
    | error e => rw [hc] at h; exact absurd h (by simp)
    | ok c =>
      rw [hc] at h
      cases c with
      | true =>
        have : r = a :: b :: bs := by cases h; rfl
        rw [this]
      | false =>
        cases hrest : insertE lt a bs with
        | error e => rw [hrest] at h; exact absurd h (by simp)
        | ok s =>
          rw [hrest] at h
          have : r = b :: s := by cases h; rfl
          rw [this]
          exact ((ih hrest).cons b).trans (List.Perm.swap a b bs)

theorem isortE_ok_perm :
    ∀ {l acc r : List α}, isortE lt l acc = .ok r →
    List.Perm r (l ++ acc) := by
  intro l
  induction l with
  | nil =>
    intro acc r h
    simp [isortE] at h
    simp [← h]
  | cons a as ih =>
    intro acc r h
    simp only [isortE] at h
    cases hins : insertE lt a acc with
    | error e => rw [hins] at h; exact absurd h (by simp)
    | ok acc' =>
      rw [hins] at h
      have h1 : List.Perm r (as ++ acc') := ih h
      have h2 : List.Perm (as ++ acc') (as ++ (a :: acc)) :=
        List.Perm.append_left as (insertE_ok_perm hins)
      have h3 : List.Perm (as ++ (a :: acc)) (a :: (as ++ acc)) :=
        List.perm_middle
      exact (h1.trans h2).trans h3

end SortTheory



/-! Claim-specific inputs. -/

/-- A recipe entry naming the ambiguous ingredient of the Agaleus
example. -/
def agaleusEntry : RawEntry :=
  { name := "Agaleus Blade", wikiSection := "recipe",
    confidence := some 1, ingredients := [⟨"Agaleus", 1⟩] }

/-- The two-candidate item index of the Agaleus example. -/
def agaleusIndex : List (String × List Int) := [("Agaleus", [105438, 105738])]

/-- A crafting acquisition whose metadata carries a numeric minRating. -/
def craftingRated : PyDict :=
  [("type", pyStr "crafting"), ("outputQuantity", pyInt 1),
   ("requirements", pyList []),
   ("metadata", pyDict [("minRating", pyInt 400)])]

/-- A crafting acquisition with no minRating in its metadata. -/
def craftingUnrated : PyDict :=
  [("type", pyStr "crafting"), ("outputQuantity", pyInt 1),
   ("requirements", pyList []), ("metadata", pyDict [])]

/-- A resource_node acquisition as the classifier produces it. -/
def resourceNodeAcq : PyDict :=
  [("type", pyStr "resource_node"), ("nodeName", pyStr "Iron Ore Vein"),
   ("outputQuantity", pyInt 1), ("requirements", pyList []),
   ("metadata", pyDict [])]

/-- A map_reward acquisition as the classifier produces it. -/
def mapRewardAcq : PyDict :=
  [("type", pyStr "map_reward"), ("outputQuantity", pyInt 1),
   ("requirements", pyList []), ("metadata", pyDict [])]

/-- A mystic_forge acquisition distinguished only by a metadata note,
invisible to the sort key. -/
def mysticNoteA : PyDict :=
  [("type", pyStr "mystic_forge"), ("outputQuantity", pyInt 1),
   ("requirements", pyList []),
   ("metadata", pyDict [("notes", pyStr "from vendor A")])]

/-- A second mystic_forge acquisition with the same sort key as
mysticNoteA but different contents. -/
def mysticNoteB : PyDict :=
  [("type", pyStr "mystic_forge"), ("outputQuantity", pyInt 1),
   ("requirements", pyList []),
   ("metadata", pyDict [("notes", pyStr "from vendor B")])]

/-- C1: the source can never take the self-reference branch.
resolve_item_name_to_id raises a plain APIError both when a name is
missing and when it maps to several ids, never the
MultipleItemMatchError that the disambiguation branch of
_resolve_ingredient_list awaits; consequently, with the index mapping
Agaleus to the ids 105438 and 105738 and current item 105438, the
ingredient does not resolve to 105738: the entry is dropped in lenient
mode and strict mode aborts with ValueError, against the documented
intent of exceptions.py and the callers of populate.py. -/
theorem self_reference_disambiguation_dead :
    (∀ (name : String) (idx : List (String × List Int)),
      resolveItemNameToId name idx = .error .apiError ∨
      ∃ i, resolveItemNameToId name idx = .ok i) ∧
    resolveItemNameToId "Agaleus" agaleusIndex = .error .apiError ∧
    classifyAndResolve agaleusIndex [] [] false 105438 [agaleusEntry] =
      .ok [] ∧
    classifyAndResolve agaleusIndex [] [] true 105438 [agaleusEntry] =
      .error .valueError := by
  refine ⟨?_, by decide, by decide, by decide⟩
  intro name idx
  unfold resolveItemNameToId
  cases lookupIdx idx (cleanName name) with
  | none => exact Or.inl rfl
  | some ms =>
    match ms with
    | [] => exact Or.inl rfl
    | [i] => exact Or.inr ⟨i, rfl⟩
    | _ :: _ :: _ => exact Or.inl rfl

/-- C4: sorting a crafting acquisition carrying a numeric minRating
together with one whose minRating is missing raises TypeError, because
the missing value becomes the empty string and Python cannot compare a
string with an integer; the sort is not total. -/
theorem sorter_raises_on_missing_numeric_secondary :
    sortAcquisitions [craftingRated, craftingUnrated] =
      .error .typeError ∧
    pyLt (pyStr "") (pyInt 400) = .error .typeError := by
  exact ⟨by decide, by decide⟩

/-- C2 counterexample: two distinct mystic_forge acquisitions share a
sort key, the stable sort keeps them in input order, and so the two
orderings of the same two-element multiset sort to different outputs,
refuting order-independence as stated. -/
theorem sort_depends_on_input_order_at_ties :
    List.Perm [mysticNoteB, mysticNoteA] [mysticNoteA, mysticNoteB] ∧
    sortAcquisitions [mysticNoteA, mysticNoteB] =
      .ok [mysticNoteA, mysticNoteB] ∧
    sortAcquisitions [mysticNoteB, mysticNoteA] =
      .ok [mysticNoteB, mysticNoteA] ∧
    ([mysticNoteB, mysticNoteA] : List PyDict) ≠
      [mysticNoteA, mysticNoteB] := by
  exact ⟨by decide, by decide, by decide, by decide⟩

/-- C3 counterexample: a resource_node acquisition sorts after a
map_reward acquisition, not before it, because resource_node is absent
from ACQUISITION_TYPE_ORDER and so gets priority 999. -/
theorem resource_node_sorts_after_map_reward :
    sortAcquisitions [resourceNodeAcq, mapRewardAcq] =
      .ok [mapRewardAcq, resourceNodeAcq] ∧
    ([mapRewardAcq, resourceNodeAcq] : List PyDict) ≠
      [resourceNodeAcq, mapRewardAcq] := by
  exact ⟨by decide, by decide⟩

theorem listIndexOf_eq_none {t : String} :
    ∀ {l : List String}, t ∉ l → listIndexOf t l = none := by
  intro l
  induction l with
  | nil => intro _; rfl
  | cons s rest ih =>
    intro h
    have hs : ¬ s = t := fun e => h (by simp [e])
    have hrest : t ∉ rest := fun e => h (by simp [e])
    simp [listIndexOf, hs, ih hrest]

/-- C3 amended: the primary sort key is the position in
ACQUISITION_TYPE_ORDER, which lists crafting, mystic_forge, vendor,
achievement, container, salvage, map_reward, wvw_reward, pvp_reward,
wizards_vault and story in strictly increasing priority; resource_node
and other are not in the table, so like every unlisted type they get
priority 999 and sort after all listed types — in particular every
map_reward acquisition key precedes every resource_node key. -/
theorem acquisition_type_priority_table :
    ACQUISITION_TYPE_ORDER =
      ["crafting", "mystic_forge", "vendor", "achievement", "container",
       "salvage", "map_reward", "wvw_reward", "pvp_reward",
       "wizards_vault", "story"] ∧
    ACQUISITION_TYPE_ORDER.Pairwise
      (fun a b => typePriority a < typePriority b) ∧
    typePriority "resource_node" = 999 ∧
    typePriority "other" = 999 ∧
    (∀ t : String, t ∉ ACQUISITION_TYPE_ORDER → typePriority t = 999) ∧
    (∀ t ∈ ACQUISITION_TYPE_ORDER, typePriority t < 999) := by
  refine ⟨rfl, by decide, by decide, by decide, ?_, by decide⟩
  intro t ht
  simp [typePriority, listIndexOf_eq_none ht]

/-- C3 amended, witness: the unlisted made_up_section type gets
priority 999, above the priority 6 of map_reward. -/
theorem acquisition_type_priority_table_witness :
    "made_up_section" ∉ ACQUISITION_TYPE_ORDER ∧
    typePriority "made_up_section" = 999 ∧
    typePriority "map_reward" = 6 :=
  ⟨by decide,
   acquisition_type_priority_table.2.2.2.2.1 "made_up_section" (by decide),
   by decide⟩

/-- C2 amended: sorting is invariant under permutation of the input
whenever the decorated sort keys compare without error and the key
comparison is asymmetric, transitive and total on distinct decorated
records — that is, whenever no two distinct acquisitions are tied on
their sort key.  At ties the stable sort preserves input order, so only
tied records can make two permutations sort differently. -/
theorem sort_permutation_invariant (X P m : List PyDict)
    (pr : List (PyDict × PyVal))
    (hperm : List.Perm P X)
    (hm : mapME resortReqs X = .ok m)
    (hpr : mapME (keyPairE getSortKey) m = .ok pr)
    (hok : ∀ p ∈ pr, ∀ q ∈ pr, ltOnKey p q = .ok (ltEx ltOnKey p q))
    (hasym : ∀ p ∈ pr, ∀ q ∈ pr,
      ltEx ltOnKey p q = true → ltEx ltOnKey q p = false)
    (htrans : ∀ p ∈ pr, ∀ q ∈ pr, ∀ r ∈ pr,
      ltEx ltOnKey p q = true → ltEx ltOnKey q r = true →
      ltEx ltOnKey p r = true)
    (htot : ∀ p ∈ pr, ∀ q ∈ pr, p ≠ q →
      ltEx ltOnKey p q = true ∨ ltEx ltOnKey q p = true) :
    sortAcquisitions P = sortAcquisitions X := by
  obtain ⟨m', hm', hmm'⟩ := mapME_perm hperm.symm hm
  obtain ⟨pr', hpr', hprpr'⟩ := mapME_perm hmm' hpr
  have hiso : isortE ltOnKey pr' [] = isortE ltOnKey pr [] :=
    isortE_eq_of_perm hprpr'.symm
      (fun p hp q hq => ⟨ltEx ltOnKey p q, hok p hp q hq⟩)
      hasym htrans htot
  simp only [sortAcquisitions, hm, hm', sortByKeyE, hpr, hpr', hiso]

/-- A mystic_forge acquisition used in the permutation witness. -/
def permAcqForge : PyDict :=
  [("type", pyStr "mystic_forge"), ("outputQuantity", pyInt 1)]

/-- A vendor acquisition used in the permutation witness. -/
def permAcqVendor : PyDict :=
  [("type", pyStr "vendor"), ("vendorName", pyStr "Alpha"),
   ("outputQuantity", pyInt 1)]

/-- A salvage acquisition used in the permutation witness. -/
def permAcqSalvage : PyDict :=
  [("type", pyStr "salvage"), ("itemId", pyInt 7),
   ("outputQuantity", pyInt 1)]

/-- The decorated key list of the permutation witness input. -/
def permDecorated : List (PyDict × PyVal) :=
  [(permAcqForge,
     pyList [pyInt 1, pyList [], pyInt 0, pyInt 1]),
   (permAcqVendor,
     pyList [pyInt 2, pyList [pyStr "Alpha"], pyInt 0, pyInt 1]),
   (permAcqSalvage,
     pyList [pyInt 5, pyList [pyStr "", pyStr ""], pyInt 0, pyInt 1])]

/-- C2 amended, witness: a rotation of three key-distinct acquisitions
sorts to the same list as the original order. -/
theorem sort_permutation_invariant_witness :
    List.Perm [permAcqSalvage, permAcqForge, permAcqVendor]
      [permAcqForge, permAcqVendor, permAcqSalvage] ∧
    sortAcquisitions [permAcqSalvage, permAcqForge, permAcqVendor] =
      sortAcquisitions [permAcqForge, permAcqVendor, permAcqSalvage] :=
  ⟨by decide,
   sort_permutation_invariant
     [permAcqForge, permAcqVendor, permAcqSalvage]
     [permAcqSalvage, permAcqForge, permAcqVendor]
     [permAcqForge, permAcqVendor, permAcqSalvage]
     permDecorated
     (by decide) (by decide) (by decide) (by decide) (by decide)
     (by decide) (by decide)⟩

/-- C5: the confidence gate of classify_and_resolve is a single global
filter: the output over any entry list equals the output over the
sublist of entries whose confidence (defaulting to zero when missing)
is at least the 0.8 threshold, so low-confidence entries contribute
nothing regardless of section, and every entry at or above the
threshold is passed on to classification. -/
theorem confidence_gate_filters (itemIdx : List (String × List Int))
    (currencyIdx : List (String × Int)) (gn : List String) (strict : Bool)
    (cid : Int) (entries : List RawEntry) :
    classifyAndResolve itemIdx currencyIdx gn strict cid entries =
      classifyAndResolve itemIdx currencyIdx gn strict cid
        (entries.filter
          (fun e => decide (confidenceThreshold ≤ e.confidence.getD 0))) := by
  induction entries with
  | nil => rfl
  | cons e rest ih =>
    by_cases h : e.confidence.getD 0 < confidenceThreshold
    · have hf : decide (confidenceThreshold ≤ e.confidence.getD 0) = false := by
        simp [not_le.mpr h]
      simp [classifyAndResolve, h, hf, ih]
    · have hf : decide (confidenceThreshold ≤ e.confidence.getD 0) = true := by
        simp [not_lt.mp h]
      simp only [List.filter_cons, hf, if_pos]
      simp only [classifyAndResolve, h, if_neg, ite_false]
      cases hc : classifyEntry e itemIdx currencyIdx gn strict cid with
      | error ex => rfl
      | ok o =>
        cases o with
        | none => exact ih
        | some acq =>
          dsimp only
          cases he : emitAcq acq with
          | error ex => rfl
          | ok emitted => rw [ih]

theorem dictLookup_dictSet_self (d : PyDict) (k : String) (v : PyVal) :
    dictLookup (dictSet d k v) k = some v := by
  induction d with
  | nil => simp [dictSet, dictLookup]
  | cons kv rest ih =>
    obtain ⟨k', v'⟩ := kv
    by_cases h : k' = k
    · simp [dictSet, dictLookup, h]
    · simp [dictSet, dictLookup, h, ih]

theorem dictLookup_dictSet_ne (d : PyDict) (k k' : String) (v : PyVal)
    (h : k' ≠ k) : dictLookup (dictSet d k v) k' = dictLookup d k' := by
  induction d with
  | nil =>
    have h' : ¬ k = k' := fun e => h e.symm
    simp [dictSet, dictLookup, h']
  | cons kv rest ih =>
    obtain ⟨k'', v'⟩ := kv
    by_cases hk : k'' = k
    · have h' : ¬ k = k' := fun e => h e.symm
      simp [dictSet, dictLookup, hk, h']
    · by_cases hk' : k'' = k'
      · simp [dictSet, dictLookup, hk, hk', h]
      · simp [dictSet, dictLookup, hk, hk', ih]

theorem dictLookup_match_itemId (acq : PyDict) (k : String)
    (h : k ≠ "itemId") (res : Except PyExc Int) :
    dictLookup (match res with
      | .ok i => dictSet acq "itemId" (pyInt i)
      | .error _ => acq) k = dictLookup acq k := by
  cases res with
  | ok i => exact dictLookup_dictSet_ne _ _ _ _ h
  | error e => rfl

theorem dictLookup_addContainerItemId (itemIdx : List (String × List Int))
    (name : String) (acq : PyDict) (k : String) (h : k ≠ "itemId") :
    dictLookup (addContainerItemId itemIdx name acq) k = dictLookup acq k := by
  simp only [addContainerItemId]
  exact dictLookup_match_itemId acq k h _

/-- A contained_in entry under the chance subsection whose fields say
guaranteed. -/
def chanceSubsectionEntry : RawEntry :=
  { name := "Chance Box", wikiSection := "contained_in",
    wikiSubsection := some "chance", confidence := some 1,
    guaranteed := some true }

/-- A contained_in entry with no subsection and both drop-certainty
fields explicitly false. -/
def bothFalseContainedEntry : RawEntry :=
  { name := "Plain Box", wikiSection := "contained_in",
    confidence := some 1, guaranteed := some false, choice := some false }

/-- C6 counterexample: a contained_in entry under subsection chance is
dropped even with guaranteed true, and a contained_in entry with no
subsection is kept even with guaranteed and choice both explicitly
false — both directions of the claim fail on contained_in. -/
theorem chance_filter_contained_in_counterexample :
    classifyEntry chanceSubsectionEntry [] [] [] true 0 = .ok none ∧
    classifyEntry bothFalseContainedEntry [] [] [] true 0 =
      .ok (some
        [("type", pyStr "container"),
         ("containerName", pyStr "Plain Box"),
         ("outputQuantity", pyInt 1),
         ("requirements", pyList []),
         ("metadata", pyDict [])]) := by
  exact ⟨by decide, by decide⟩

/-- C6 amended: for gathered_from entries the classifier returns none
exactly when guaranteed and choice are both explicitly false; for
contained_in entries it returns none exactly when the subsection is
chance (regardless of the fields), or the subsection is inline and both
fields are explicitly false; no other subsection consults the fields. -/
theorem chance_filter_characterization (e : RawEntry)
    (itemIdx : List (String × List Int)) (currencyIdx : List (String × Int))
    (gn : List String) (strict : Bool) (cid : Int) :
    (e.wikiSection = "gathered_from" →
      (classifyEntry e itemIdx currencyIdx gn strict cid = .ok none ↔
        (e.guaranteed = some false ∧ e.choice = some false))) ∧
    (e.wikiSection = "contained_in" →
      (classifyEntry e itemIdx currencyIdx gn strict cid = .ok none ↔
        (e.wikiSubsection = some "chance" ∨
         (e.wikiSubsection = some "inline" ∧ e.guaranteed = some false ∧
          e.choice = some false)))) := by
  constructor
  · intro hsec
    simp only [classifyEntry, hsec, reduceIte]
    rcases hg : e.guaranteed with _ | g <;>
      rcases hc : e.choice with _ | c <;>
        by_cases hn : cleanName e.name ∈ gn <;>
          simp [hn, dictLookup, dictLookup_dictSet_self,
            dictLookup_dictSet_ne, dictLookup_addContainerItemId]
  · intro hsec
    simp only [classifyEntry, hsec, reduceIte]
    by_cases hch : e.wikiSubsection = some "chance"
    · simp [hch]
    · by_cases hgu : e.wikiSubsection = some "guaranteed"
      · simp [hgu, hch]
      · by_cases hin : e.wikiSubsection = some "inline"
        · rcases hg : e.guaranteed with _ | g <;>
            rcases hc : e.choice with _ | c <;>
              simp [hin, hch, hgu, dictLookup, dictLookup_dictSet_self,
                dictLookup_dictSet_ne, dictLookup_addContainerItemId]
        · simp [hch, hgu, hin]

/-- A gathered_from entry with both drop-certainty fields explicitly
false. -/
def gatheredBothFalseEntry : RawEntry :=
  { name := "Some Node", wikiSection := "gathered_from",
    confidence := some 1, guaranteed := some false, choice := some false }

/-- C6 amended, witness: the characterization applied to a concrete
gathered_from entry with both fields false, which is dropped. -/
theorem chance_filter_characterization_witness :
    gatheredBothFalseEntry.wikiSection = "gathered_from" ∧
    (classifyEntry gatheredBothFalseEntry [] [] [] true 0 = .ok none ↔
      (gatheredBothFalseEntry.guaranteed = some false ∧
       gatheredBothFalseEntry.choice = some false)) :=
  ⟨rfl,
   (chance_filter_characterization gatheredBothFalseEntry [] [] [] true 0).1
     rfl⟩

/-- C7: a salvaged_from entry with guaranteed true that passes the
confidence gate and whose cleaned name maps to a non-empty candidate
list in the item index yields exactly one salvage acquisition per
candidate id, in index order, each carrying that id as its itemId. -/
theorem salvage_fanout (e : RawEntry) (itemIdx : List (String × List Int))
    (currencyIdx : List (String × Int)) (gn : List String) (strict : Bool)
    (cid : Int) (ids : List Int)
    (hsec : e.wikiSection = "salvaged_from")
    (hg : e.guaranteed = some true)
    (hconf : ¬ e.confidence.getD 0 < confidenceThreshold)
    (hidx : lookupIdx itemIdx (cleanName e.name) = some ids)
    (hne : ids ≠ []) :
    classifyAndResolve itemIdx currencyIdx gn strict cid [e] =
      .ok (ids.map (fun i =>
        [("type", pyStr "salvage"),
         ("outputQuantity", pyInt (e.quantity.getD 1)),
         ("requirements", pyList []),
         ("metadata", pyDict e.metadata),
         ("guaranteed", pyBool true),
         ("itemId", pyInt i)])) := by
  cases ids with
  | nil => exact absurd rfl hne
  | cons m ms =>
    simp only [classifyAndResolve, hconf, if_neg, ite_false]
    simp only [classifyEntry, hsec, reduceIte, hg, hidx]
    simp [emitAcq, dictLookup, dictRemove, dictSet]

/-- The Shared Item salvage entry of the fan-out example. -/
def sharedItemEntry : RawEntry :=
  { name := "Shared Item", wikiSection := "salvaged_from",
    guaranteed := some true, confidence := some 1 }

/-- The Shared Item index mapping one display name to two ids. -/
def sharedItemIndex : List (String × List Int) := [("Shared Item", [10, 20])]

/-- C7 witness: the Shared Item entry against the two-id index yields
exactly two salvage acquisitions, one per id. -/
theorem salvage_fanout_witness :
    sharedItemEntry.wikiSection = "salvaged_from" ∧
    sharedItemEntry.guaranteed = some true ∧
    lookupIdx sharedItemIndex (cleanName sharedItemEntry.name) =
      some [10, 20] ∧
    classifyAndResolve sharedItemIndex [] [] true 0 [sharedItemEntry] =
      .ok (([10, 20] : List Int).map (fun i =>
        [("type", pyStr "salvage"),
         ("outputQuantity", pyInt (sharedItemEntry.quantity.getD 1)),
         ("requirements", pyList []),
         ("metadata", pyDict sharedItemEntry.metadata),
         ("guaranteed", pyBool true),
         ("itemId", pyInt i)])) :=
  ⟨rfl, rfl, by decide,
   salvage_fanout sharedItemEntry sharedItemIndex [] [] true 0 [10, 20]
     rfl rfl (by decide) (by decide) (by decide)⟩

theorem resolveItemNameToId_cases (name : String)
    (idx : List (String × List Int)) :
    (∃ i, resolveItemNameToId name idx = .ok i) ∨
      resolveItemNameToId name idx = .error .apiError := by
  unfold resolveItemNameToId
  cases lookupIdx idx (cleanName name) with
  | none => exact Or.inr rfl
  | some ms =>
    match ms with
    | [] => exact Or.inr rfl
    | [i] => exact Or.inl ⟨i, rfl⟩
    | _ :: _ :: _ => exact Or.inr rfl

theorem resolveIngredientStep_lenient_ok (itemIdx : List (String × List Int))
    (currencyIdx : List (String × Int)) (cid : Int) (ing : Ingredient) :
    ∃ o, resolveIngredientStep itemIdx currencyIdx false cid ing = .ok o := by
  unfold resolveIngredientStep
  cases resolveCurrencyNameToId ing.name currencyIdx with
  | ok c => exact ⟨_, rfl⟩
  | error e =>
    rcases resolveItemNameToId_cases ing.name itemIdx with ⟨i, hi⟩ | hi <;>
      simp [hi]

theorem resolveIngredientList_lenient_none
    (itemIdx : List (String × List Int)) (currencyIdx : List (String × Int))
    (cid : Int) :
    ∀ ings : List Ingredient,
    (∃ ing ∈ ings,
      resolveIngredientStep itemIdx currencyIdx false cid ing = .ok none) →
    resolveIngredientList itemIdx currencyIdx false cid ings = .ok none := by
  intro ings
  induction ings with
  | nil => intro h; simp at h
  | cons ing rest ih =>
    intro h
    obtain ⟨ing0, hmem, hfail⟩ := h
    cases hstep : resolveIngredientStep itemIdx currencyIdx false cid ing with
    | error e =>
      obtain ⟨o, ho⟩ :=
        resolveIngredientStep_lenient_ok itemIdx currencyIdx cid ing
      rw [hstep] at ho
      exact absurd ho (by simp)
    | ok o =>
      cases o with
      | none => simp [resolveIngredientList, hstep]
      | some r =>
        rcases List.mem_cons.mp hmem with rfl | hmem0
        · rw [hstep] at hfail
          exact absurd hfail (by simp)
        · have hrest := ih ⟨ing0, hmem0, hfail⟩
          simp [resolveIngredientList, hstep, hrest]

/-- C8: in lenient mode, a recipe, vendor or wizards_vault entry with
an unresolvable ingredient contributes nothing to the batch — the whole
entry is dropped, no partially resolved acquisition is emitted — and
the remaining entries are processed exactly as if the entry were not
there. -/
theorem lenient_failure_drops_whole_entry (e : RawEntry)
    (rest : List RawEntry) (itemIdx : List (String × List Int))
    (currencyIdx : List (String × Int)) (gn : List String) (cid : Int)
    (hsec : e.wikiSection = "recipe" ∨ e.wikiSection = "vendor" ∨
      e.wikiSection = "wizards_vault")
    (hfail : ∃ ing ∈ e.ingredients,
      resolveIngredientStep itemIdx currencyIdx false cid ing = .ok none) :
    classifyAndResolve itemIdx currencyIdx gn false cid (e :: rest) =
      classifyAndResolve itemIdx currencyIdx gn false cid rest := by
  by_cases hconf : e.confidence.getD 0 < confidenceThreshold
  · simp [classifyAndResolve, hconf]
  · have hril :=
      resolveIngredientList_lenient_none itemIdx currencyIdx cid
        e.ingredients hfail
    have hce : classifyEntry e itemIdx currencyIdx gn false cid = .ok none := by
      rcases hsec with hs | hs | hs <;>
        simp [classifyEntry, hs, reduceIte, hril]
    simp [classifyAndResolve, hconf, hce]

/-- A vendor entry with an ingredient that resolves in no index. -/
def unresolvableVendorEntry : RawEntry :=
  { name := "Broken Vendor", wikiSection := "vendor",
    confidence := some 1, ingredients := [⟨"Missing Thing", 3⟩] }

/-- An other-section entry that classifies successfully. -/
def plainOtherEntry : RawEntry :=
  { name := "Note", wikiSection := "other", confidence := some 1,
    metadata := [("notes", pyStr "wiki note")] }

/-- C8 witness: the unresolvable vendor entry is dropped whole in
lenient mode while the following entry is still processed. -/
theorem lenient_failure_drops_whole_entry_witness :
    (∃ ing ∈ unresolvableVendorEntry.ingredients,
      resolveIngredientStep [] [] false 0 ing = .ok none) ∧
    classifyAndResolve [] [] [] false 0
        [unresolvableVendorEntry, plainOtherEntry] =
      classifyAndResolve [] [] [] false 0 [plainOtherEntry] :=
  ⟨⟨⟨"Missing Thing", 3⟩, by decide, by decide⟩,
   lenient_failure_drops_whole_entry unresolvableVendorEntry
     [plainOtherEntry] [] [] [] 0 (Or.inr (Or.inl rfl))
     ⟨⟨"Missing Thing", 3⟩, by decide, by decide⟩⟩

theorem dictLookup_dictRemove_ne (d : PyDict) (k k' : String)
    (h : k' ≠ k) : dictLookup (dictRemove d k) k' = dictLookup d k' := by
  induction d with
  | nil => rfl
  | cons kv rest ih =>
    obtain ⟨k'', v⟩ := kv
    by_cases hk : k'' = k
    · have h' : ¬ k'' = k' := fun e => h (e ▸ hk.symm ▸ rfl)
      simp [dictRemove, dictLookup, hk, h', Ne.symm h]
    · by_cases hk' : k'' = k'
      · simp [dictRemove, dictLookup, hk, hk', h]
      · simp [dictRemove, dictLookup, hk, hk', ih]

theorem dictLookup_addQtyRange_ne (e : RawEntry) (acq : PyDict) (k : String)
    (h1 : k ≠ "outputQuantityMin") (h2 : k ≠ "outputQuantityMax") :
    dictLookup (addQtyRange e acq) k = dictLookup acq k := by
  unfold addQtyRange
  cases e.quantityMin with
  | none =>
    cases e.quantityMax with
    | none => rfl
    | some mx => exact dictLookup_dictSet_ne _ _ _ _ h2
  | some mn =>
    cases e.quantityMax with
    | none => exact dictLookup_dictSet_ne _ _ _ _ h1
    | some mx =>
      rw [dictLookup_dictSet_ne _ _ _ _ h2]
      exact dictLookup_dictSet_ne _ _ _ _ h1

/-- Whether a requirement dict binds a key, the containment test of the
requirement invariant. -/
def hasKeyB (d : PyDict) (k : String) : Bool := (dictLookup d k).isSome

/-- The requirement invariant: exactly one of itemId and currencyId is
bound, together with a quantity. -/
def reqExclusiveB : PyVal → Bool
  | pyDict d =>
    ((hasKeyB d "itemId" && !hasKeyB d "currencyId") ||
     (hasKeyB d "currencyId" && !hasKeyB d "itemId")) && hasKeyB d "quantity"
  | _ => false

/-- The requirements list stored in an acquisition dict. -/
def reqListOf (acq : PyDict) : List PyVal :=
  match dictLookup acq "requirements" with
  | some (pyList l) => l
  | _ => []

theorem step_req_exclusive (itemIdx : List (String × List Int))
    (currencyIdx : List (String × Int)) (strict : Bool) (cid : Int)
    (ing : Ingredient) (r : PyDict)
    (h : resolveIngredientStep itemIdx currencyIdx strict cid ing =
      .ok (some r)) :
    reqExclusiveB (pyDict r) = true := by
  unfold resolveIngredientStep at h
  cases hc : resolveCurrencyNameToId ing.name currencyIdx with
  | ok c =>
    rw [hc] at h
    have : r = mkCurrencyReq c ing.quantity := by cases h; rfl
    subst this
    simp [reqExclusiveB, mkCurrencyReq, hasKeyB, dictLookup]
  | error ec =>
    rw [hc] at h
    cases hi : resolveItemNameToId ing.name itemIdx with
    | ok i =>
      rw [hi] at h
      have : r = mkItemReq i ing.quantity := by cases h; rfl
      subst this
      simp [reqExclusiveB, mkItemReq, hasKeyB, dictLookup]
    | error ei =>
      rw [hi] at h
      cases ei with
      | apiError =>
        cases strict <;> simp at h
      | keyError =>
        cases strict <;> simp at h
      | multipleItemMatch ids =>
        by_cases hmem : cid ∈ ids
        · simp only [hmem, if_pos] at h
          cases hrem : ids.filter (fun m => decide (m ≠ cid)) with
          | nil => rw [hrem] at h; cases strict <;> simp at h
          | cons a tl =>
            cases tl with
            | nil =>
              rw [hrem] at h
              have : r = mkItemReq a ing.quantity := by cases h; rfl
              subst this
              simp [reqExclusiveB, mkItemReq, hasKeyB, dictLookup]
            | cons b tl2 => rw [hrem] at h; cases strict <;> simp at h
        · simp only [hmem, if_neg, not_false_iff] at h
          cases strict <;> simp at h
      | valueError => cases strict <;> simp at h
      | typeError => cases strict <;> simp at h

theorem resolveIngredientList_reqs (itemIdx : List (String × List Int))
    (currencyIdx : List (String × Int)) (strict : Bool) (cid : Int) :
    ∀ (ings : List Ingredient) (reqs : List PyDict),
    resolveIngredientList itemIdx currencyIdx strict cid ings =
      .ok (some reqs) →
    ∀ r ∈ reqs, reqExclusiveB (pyDict r) = true := by
  intro ings
  induction ings with
  | nil =>
    intro reqs h r hr
    have : reqs = [] := by
      simp [resolveIngredientList] at h
      exact h
    subst this
    simp at hr
  | cons ing rest ih =>
    intro reqs h r hr
    simp only [resolveIngredientList] at h
    cases hstep : resolveIngredientStep itemIdx currencyIdx strict cid ing with
    | error e => rw [hstep] at h; exact absurd h (by simp)
    | ok o =>
      rw [hstep] at h
      cases o with
      | none => exact absurd h (by simp)
      | some r0 =>
        cases hrest : resolveIngredientList itemIdx currencyIdx strict cid
            rest with
        | error e => rw [hrest] at h; exact absurd h (by simp)
        | ok o2 =>
          rw [hrest] at h
          cases o2 with
          | none => exact absurd h (by simp)
          | some rs =>
            have : reqs = r0 :: rs := by cases h; rfl
            subst this
            rcases List.mem_cons.mp hr with rfl | hr2
            · exact step_req_exclusive _ _ _ _ _ _ hstep
            · exact ih rs hrest r hr2

theorem classifyEntry_reqs (e : RawEntry) (itemIdx : List (String × List Int))
    (currencyIdx : List (String × Int)) (gn : List String) (strict : Bool)
    (cid : Int) (acq : PyDict)
    (h : classifyEntry e itemIdx currencyIdx gn strict cid = .ok (some acq)) :
    ∀ v ∈ reqListOf acq, reqExclusiveB v = true := by
  by_cases h1 : e.wikiSection = "recipe"
  · simp only [classifyEntry, h1, String.reduceEq, reduceIte] at h
    cases hr : resolveIngredientList itemIdx currencyIdx strict cid
        e.ingredients with
    | error ex => rw [hr] at h; exact absurd h (by simp)
    | ok o =>
      rw [hr] at h
      cases o with
      | none => exact absurd h (by simp)
      | some reqs =>
        cases h
        intro v hv
        rw [reqListOf,
          dictLookup_addQtyRange_ne e _ _ (by decide) (by decide)] at hv
        simp only [dictLookup] at hv
        norm_num at hv
        obtain ⟨r, hrm, rfl⟩ := List.mem_map.mp hv
        exact resolveIngredientList_reqs itemIdx currencyIdx strict cid
          e.ingredients reqs hr r hrm
  by_cases h2 : e.wikiSection = "vendor"
  · simp only [classifyEntry, h2, String.reduceEq, reduceIte] at h
    cases hr : resolveIngredientList itemIdx currencyIdx strict cid
        e.ingredients with
    | error ex => rw [hr] at h; exact absurd h (by simp)
    | ok o =>
      rw [hr] at h
      cases o with
      | none => exact absurd h (by simp)
      | some reqs =>
        cases h
        intro v hv
        simp only [reqListOf, dictLookup] at hv
        norm_num at hv
        obtain ⟨r, hrm, rfl⟩ := List.mem_map.mp hv
        exact resolveIngredientList_reqs itemIdx currencyIdx strict cid
          e.ingredients reqs hr r hrm
  by_cases h3 : e.wikiSection = "gathered_from"
  · simp only [classifyEntry, h3, String.reduceEq, reduceIte] at h
    rcases hg : e.guaranteed with _ | g <;>
      rcases hc : e.choice with _ | c <;>
        simp only [hg, hc] at h <;>
          by_cases hn : cleanName e.name ∈ gn <;>
            (try rcases g with _ | _) <;> (try rcases c with _ | _) <;>
              simp [hn, dictLookup_dictSet_self, dictLookup_dictSet_ne,
                dictLookup_addContainerItemId, dictLookup] at h <;>
                subst h <;>
                  (intro v hv
                   simp [reqListOf, dictLookup_addQtyRange_ne,
                     dictLookup_dictSet_self, dictLookup_dictSet_ne,
                     dictLookup_addContainerItemId, dictLookup, hn] at hv)
  by_cases h4 : e.wikiSection = "contained_in"
  · simp only [classifyEntry, h4, String.reduceEq, reduceIte] at h
    by_cases hch : e.wikiSubsection = some "chance"
    · simp [hch] at h
    · rw [if_neg hch] at h
      by_cases hgu : e.wikiSubsection = some "guaranteed"
      · rw [if_pos hgu] at h
        cases h
        intro v hv
        simp [reqListOf, dictLookup_addQtyRange_ne,
          dictLookup_addContainerItemId, dictLookup_dictSet_ne,
          dictLookup, dictSet] at hv
      · rw [if_neg hgu] at h
        by_cases hin : e.wikiSubsection = some "inline"
        · rw [if_pos hin] at h
          rcases hg : e.guaranteed with _ | g <;>
            rcases hc : e.choice with _ | c <;>
              simp only [hg, hc] at h <;>
                (try rcases g with _ | _) <;> (try rcases c with _ | _) <;>
                  simp [dictLookup_dictSet_self, dictLookup_dictSet_ne,
                    dictLookup] at h <;>
                    subst h <;>
                      (intro v hv
                       simp [reqListOf, dictLookup_addQtyRange_ne,
                         dictLookup_dictSet_self, dictLookup_dictSet_ne,
                         dictLookup_addContainerItemId, dictLookup] at hv)
        · rw [if_neg hin] at h
          cases h
          intro v hv
          simp [reqListOf, dictLookup_addQtyRange_ne,
            dictLookup_addContainerItemId, dictLookup_dictSet_ne,
            dictLookup] at hv
  by_cases h5 : e.wikiSection = "salvaged_from"
  · simp only [classifyEntry, h5, String.reduceEq, reduceIte] at h
    rcases hg : e.guaranteed with _ | g
    · simp [hg] at h
    · rcases g with _ | _
      · simp [hg] at h
      · simp only [hg] at h
        norm_num at h
        cases hli : lookupIdx itemIdx (cleanName e.name) with
        | none => rw [hli] at h; cases strict <;> simp at h
        | some ms =>
          rw [hli] at h
          cases ms with
          | nil => cases strict <;> simp at h
          | cons m tl =>
            cases h
            intro v hv
            simp [reqListOf, dictLookup, dictSet] at hv
  by_cases h6 : e.wikiSection = "achievement"
  · simp only [classifyEntry, h6, String.reduceEq, reduceIte] at h
    cases h
    intro v hv
    simp [reqListOf, dictLookup] at hv
  by_cases h7 : e.wikiSection = "reward_track"
  · simp only [classifyEntry, h7, String.reduceEq, reduceIte] at h
    cases h
    intro v hv
    simp [reqListOf, dictLookup] at hv
  by_cases h8 : e.wikiSection = "map_reward"
  · simp only [classifyEntry, h8, String.reduceEq, reduceIte] at h
    cases h
    intro v hv
    simp [reqListOf, dictLookup] at hv
  by_cases h9 : e.wikiSection = "wizards_vault"
  · simp only [classifyEntry, h9, String.reduceEq, reduceIte] at h
    cases hr : resolveIngredientList itemIdx currencyIdx strict cid
        e.ingredients with
    | error ex => rw [hr] at h; exact absurd h (by simp)
    | ok o =>
      rw [hr] at h
      cases o with
      | none => exact absurd h (by simp)
      | some reqs =>
        cases h
        intro v hv
        simp only [reqListOf, dictLookup] at hv
        norm_num at hv
        obtain ⟨r, hrm, rfl⟩ := List.mem_map.mp hv
        exact resolveIngredientList_reqs itemIdx currencyIdx strict cid
          e.ingredients reqs hr r hrm
  by_cases h10 : e.wikiSection = "other"
  · simp only [classifyEntry, h10, String.reduceEq, reduceIte] at h
    cases h
    intro v hv
    simp [reqListOf, dictLookup] at hv
  · simp [classifyEntry, h1, h2, h3, h4, h5, h6, h7, h8, h9, h10] at h

theorem reqListOf_fanout (acq : PyDict) (v : PyVal) :
    reqListOf (dictSet (dictRemove acq "itemIds") "itemId" v) =
      reqListOf acq := by
  rw [reqListOf, reqListOf, dictLookup_dictSet_ne _ _ _ _ (by decide),
    dictLookup_dictRemove_ne _ _ _ (by decide)]

theorem emitAcq_reqs (acq : PyDict) (emitted : List PyDict)
    (h : emitAcq acq = .ok emitted)
    (hinv : ∀ v ∈ reqListOf acq, reqExclusiveB v = true) :
    ∀ b ∈ emitted, ∀ v ∈ reqListOf b, reqExclusiveB v = true := by
  unfold emitAcq at h
  by_cases ht : dictLookup acq "type" = some (pyStr "salvage")
  · rw [if_pos ht] at h
    cases hids : dictLookup acq "itemIds" with
    | none => rw [hids] at h; exact absurd h (by simp)
    | some v0 =>
      rw [hids] at h
      cases v0 with
      | pyList ids =>
        have hem : emitted =
            ids.map (fun v => dictSet (dictRemove acq "itemIds") "itemId" v) := by
          cases h; rfl
        subst hem
        intro b hb
        obtain ⟨v, _, rfl⟩ := List.mem_map.mp hb
        rw [reqListOf_fanout]
        exact hinv
      | pyNone => exact absurd h (by simp)
      | pyBool b => exact absurd h (by simp)
      | pyInt n => exact absurd h (by simp)
      | pyStr s => exact absurd h (by simp)
      | pyDict d => exact absurd h (by simp)
  · rw [if_neg ht] at h
    have hem : emitted = [acq] := by cases h; rfl
    subst hem
    intro b hb
    rcases List.mem_singleton.mp hb with rfl
    exact hinv

/-- C9: every acquisition a successful classify_and_resolve run emits
has requirements that each bind exactly one of itemId and currencyId,
never both and never neither, together with a quantity; and ingredient
resolution is currency-first: a name present in the currency index
resolves to its currencyId without the item index ever being consulted,
even when the same name is also an item name. -/
theorem requirement_exclusivity (entries : List RawEntry)
    (itemIdx : List (String × List Int)) (currencyIdx : List (String × Int))
    (gn : List String) (strict : Bool) (cid : Int) (acqs : List PyDict)
    (h : classifyAndResolve itemIdx currencyIdx gn strict cid entries =
      .ok acqs) :
    (∀ acq ∈ acqs, ∀ v ∈ reqListOf acq, reqExclusiveB v = true) ∧
    (∀ (ing : Ingredient) (c : Int),
      lookupIdx currencyIdx (cleanName ing.name) = some c →
      resolveIngredientStep itemIdx currencyIdx strict cid ing =
        .ok (some (mkCurrencyReq c ing.quantity))) := by
  refine ⟨?_, ?_⟩
  · induction entries generalizing acqs with
    | nil =>
      have : acqs = [] := by
        simp [classifyAndResolve] at h
        exact h
      subst this
      intro acq hacq
      simp at hacq
    | cons e rest ih =>
      simp only [classifyAndResolve] at h
      by_cases hconf : e.confidence.getD 0 < confidenceThreshold
      · rw [if_pos hconf] at h
        exact ih acqs h
      · rw [if_neg hconf] at h
        cases hce : classifyEntry e itemIdx currencyIdx gn strict cid with
        | error ex => rw [hce] at h; exact absurd h (by simp)
        | ok o =>
          rw [hce] at h
          cases o with
          | none => exact ih acqs h
          | some acq0 =>
            dsimp only at h
            cases hem : emitAcq acq0 with
            | error ex => rw [hem] at h; exact absurd h (by simp)
            | ok emitted =>
              rw [hem] at h
              cases hrest : classifyAndResolve itemIdx currencyIdx gn strict
                  cid rest with
              | error ex => rw [hrest] at h; exact absurd h (by simp)
              | ok tailAcqs =>
                rw [hrest] at h
                have hacqs : acqs = emitted ++ tailAcqs := by cases h; rfl
                subst hacqs
                intro acq hacq
                rcases List.mem_append.mp hacq with hmem | hmem
                · exact emitAcq_reqs acq0 emitted hem
                    (classifyEntry_reqs e itemIdx currencyIdx gn strict cid
                      acq0 hce) acq hmem
                · exact ih tailAcqs hrest acq hmem
  · intro ing c hc
    simp [resolveIngredientStep, resolveCurrencyNameToId, hc]

/-- A vendor entry mixing a currency-shadowed name and an item name. -/
def mixedVendorEntry : RawEntry :=
  { name := "Mixed Vendor", wikiSection := "vendor", confidence := some 1,
    ingredients := [⟨"Coin", 100⟩, ⟨"Widget", 2⟩] }

/-- An item index in which Coin is also an item name. -/
def mixedItemIdx : List (String × List Int) := [("Coin", [12345]), ("Widget", [77])]

/-- A currency index binding Coin. -/
def mixedCurrencyIdx : List (String × Int) := [("Coin", 1)]

/-- The classifier output for the mixed vendor entry. -/
def mixedVendorOut : List PyDict :=
  [[("type", pyStr "vendor"), ("vendorName", pyStr "Mixed Vendor"),
    ("outputQuantity", pyInt 1),
    ("requirements", pyList
      [pyDict [("currencyId", pyInt 1), ("quantity", pyInt 100)],
       pyDict [("itemId", pyInt 77), ("quantity", pyInt 2)]]),
    ("metadata", pyDict [])]]

/-- C9 witness: the mixed vendor entry resolves Coin as a currency
(never as item 12345) and every emitted requirement is exclusive. -/
theorem requirement_exclusivity_witness :
    classifyAndResolve mixedItemIdx mixedCurrencyIdx [] true 0
      [mixedVendorEntry] = .ok mixedVendorOut ∧
    (∀ acq ∈ mixedVendorOut, ∀ v ∈ reqListOf acq, reqExclusiveB v = true) ∧
    resolveIngredientStep mixedItemIdx mixedCurrencyIdx true 0 ⟨"Coin", 100⟩ =
      .ok (some (mkCurrencyReq 1 100)) :=
  ⟨by decide,
   (requirement_exclusivity [mixedVendorEntry] mixedItemIdx mixedCurrencyIdx
     [] true 0 mixedVendorOut (by decide)).1,
   (requirement_exclusivity [mixedVendorEntry] mixedItemIdx mixedCurrencyIdx
     [] true 0 mixedVendorOut (by decide)).2 ⟨"Coin", 100⟩ 1 (by decide)⟩

/-- Well-formedness of a stored requirement for sorting: a dict binding
exactly one of itemId and currencyId to an integer, as the classifier
produces. -/
def reqWF : PyVal → Bool
  | pyDict d =>
    match dictLookup d "itemId", dictLookup d "currencyId" with
    | some (pyInt _), none => true
    | none, some (pyInt _) => true
    | _, _ => false
  | _ => false

/-- Well-formedness of an acquisition for requirement sorting: either no
requirements key, or a list of well-formed requirement dicts. -/
def acqReqsWF (acq : PyDict) : Bool :=
  match dictLookup acq "requirements" with
  | none => true
  | some (pyList rs) => rs.all reqWF
  | some _ => false

/-- The group of a requirement in the req_sort_key order: zero for
items, one for currencies. -/
def reqGroup : PyVal → Int
  | pyDict d => if (dictLookup d "itemId").isSome then 0 else 1
  | _ => 2

/-- The id of a requirement in the req_sort_key order. -/
def reqIdVal : PyVal → Int
  | pyDict d =>
    match (dictLookup d "itemId").getD ((dictLookup d "currencyId").getD
        (pyInt 0)) with
    | pyInt n => n
    | _ => 0
  | _ => 0

/-- The requirement order established by sort_requirements: items before
currencies, ascending by id within each group. -/
def reqOrdered (r s : PyVal) : Prop :=
  reqGroup r < reqGroup s ∨
    (reqGroup r = reqGroup s ∧ reqIdVal r ≤ reqIdVal s)

/-- The decorated key of a requirement. -/
def reqKeyOf (r : PyVal) : PyVal :=
  pyList [pyInt (reqGroup r), pyInt (reqIdVal r)]

set_option linter.unnecessarySeqFocus false in
theorem reqSortKey_wf (r : PyVal) (h : reqWF r = true) :
    reqSortKey r = .ok (reqKeyOf r) := by
  cases r with
  | pyDict d =>
    cases hit : dictLookup d "itemId" with
    | some vi =>
      cases vi <;> cases hcur : dictLookup d "currencyId" <;>
        simp [reqWF, hit, hcur] at h <;>
          simp [reqSortKey, reqKeyOf, reqGroup, reqIdVal, hit, hcur]
    | none =>
      cases hcur : dictLookup d "currencyId" with
      | none => simp [reqWF, hit, hcur] at h
      | some vc =>
        cases vc <;> simp [reqWF, hit, hcur] at h <;>
          simp [reqSortKey, reqKeyOf, reqGroup, reqIdVal, hit, hcur]
  | pyNone => simp [reqWF] at h
  | pyBool b => simp [reqWF] at h
  | pyInt n => simp [reqWF] at h
  | pyStr s => simp [reqWF] at h
  | pyList xs => simp [reqWF] at h

theorem pyLt_intPairKeys (g1 i1 g2 i2 : Int) :
    pyLt (pyList [pyInt g1, pyInt i1]) (pyList [pyInt g2, pyInt i2]) =
      .ok (decide (g1 < g2 ∨ (g1 = g2 ∧ i1 < i2))) := by
  by_cases hg : g1 = g2
  · by_cases hi : i1 = i2 <;>
      simp [pyLt, pyLtList, pyEq, pyEqList, hg, hi]
  · simp [pyLt, pyLtList, pyEq, pyEqList, hg]

theorem reqKey_lt_iff (rp rq : PyVal) :
    ltEx ltOnKey (rp, reqKeyOf rp) (rq, reqKeyOf rq) = true ↔
      (reqGroup rp < reqGroup rq ∨
        (reqGroup rp = reqGroup rq ∧ reqIdVal rp < reqIdVal rq)) := by
  simp [ltEx, ltOnKey, reqKeyOf, pyLt_intPairKeys]

theorem mapME_keyPairE_of_keys {α : Type} {keyF : α → Except PyExc PyVal}
    {keyOf : α → PyVal} :
    ∀ {l : List α}, (∀ a ∈ l, keyF a = .ok (keyOf a)) →
    mapME (keyPairE keyF) l = .ok (l.map (fun a => (a, keyOf a))) := by
  intro l
  induction l with
  | nil => intro _; rfl
  | cons a as ih =>
    intro h
    have ha := h a (by simp)
    have hrest := ih (fun x hx => h x (by simp [hx]))
    simp [mapME, keyPairE, ha, hrest]

theorem mapME_forall₂ {α β : Type} {f : α → Except PyExc β} :
    ∀ {l : List α} {m : List β}, mapME f l = .ok m →
    List.Forall₂ (fun a b => f a = .ok b) l m := by
  intro l
  induction l with
  | nil =>
    intro m h
    have : m = [] := by simp [mapME] at h; exact h
    subst this
    exact .nil
  | cons a as ih =>
    intro m h
    simp only [mapME] at h
    cases hfa : f a with
    | error e => rw [hfa] at h; exact absurd h (by simp)
    | ok b =>
      rw [hfa] at h
      cases hrest : mapME f as with
      | error e => rw [hrest] at h; exact absurd h (by simp)
      | ok bs =>
        rw [hrest] at h
        have : m = b :: bs := by cases h; rfl
        subst this
        exact .cons hfa (ih hrest)

theorem map_fst_pair {α β : Type} (f : α → β) :
    ∀ l : List α, List.map (Prod.fst ∘ fun r => (r, f r)) l = l := by
  intro l
  induction l with
  | nil => rfl
  | cons a as ih => simp [ih]

theorem sortRequirements_wf (rs : List PyVal)
    (hwf : ∀ r ∈ rs, reqWF r = true) :
    ∃ rs', sortRequirements (pyList rs) = .ok (pyList rs') ∧
      List.Perm rs' rs ∧ rs'.Pairwise reqOrdered := by
  have hmap : mapME (keyPairE reqSortKey) rs =
      .ok (rs.map (fun r => (r, reqKeyOf r))) :=
    mapME_keyPairE_of_keys (fun r hr => reqSortKey_wf r (hwf r hr))
  have hshape : ∀ p ∈ rs.map (fun r => (r, reqKeyOf r)),
      p = (p.1, reqKeyOf p.1) := by
    intro p hp
    obtain ⟨r, _, rfl⟩ := List.mem_map.mp hp
    rfl
  have hok : ∀ a ∈ rs.map (fun r => (r, reqKeyOf r)),
      ∀ b, b ∈ rs.map (fun r => (r, reqKeyOf r)) ∨ b ∈ ([] : List (PyVal × PyVal)) →
      ∃ c, ltOnKey a b = .ok c := by
    intro a ha b hb
    rcases hb with hb | hb
    · rw [hshape a ha, hshape b hb]
      exact ⟨_, pyLt_intPairKeys _ _ _ _⟩
    · simp at hb
  have hiso := @isortE_eq_isortP _ ltOnKey
    (rs.map (fun r => (r, reqKeyOf r))) [] hok
  refine ⟨(isortP (ltEx ltOnKey) (rs.map (fun r => (r, reqKeyOf r))) []).map
      Prod.fst, ?_, ?_, ?_⟩
  · simp [sortRequirements, sortByKeyE, hmap, hiso]
  · have hperm : List.Perm
        (isortP (ltEx ltOnKey) (rs.map (fun r => (r, reqKeyOf r))) [])
        (rs.map (fun r => (r, reqKeyOf r))) := by
      simpa using @isortP_perm _ (ltEx ltOnKey)
        (rs.map (fun r => (r, reqKeyOf r))) []
    have h2 := hperm.map Prod.fst
    rw [List.map_map, map_fst_pair] at h2
    exact h2
  · have hperm : List.Perm
        (isortP (ltEx ltOnKey) (rs.map (fun r => (r, reqKeyOf r))) [])
        (rs.map (fun r => (r, reqKeyOf r))) := by
      simpa using @isortP_perm _ (ltEx ltOnKey)
        (rs.map (fun r => (r, reqKeyOf r))) []
    have hsorted : (isortP (ltEx ltOnKey)
        (rs.map (fun r => (r, reqKeyOf r))) []).Pairwise
        (fun x y => ltEx ltOnKey y x = false) := by
      refine isortP_sorted
        (S := fun p => p ∈ rs.map (fun r => (r, reqKeyOf r)))
        ?_ ?_ (fun x hx => hx) (by simp) (by simp)
      · intro x y hx hy hxy
        rw [hshape x hx, hshape y hy] at hxy ⊢
        rw [reqKey_lt_iff] at hxy
        cases hlt : ltEx ltOnKey (y.1, reqKeyOf y.1) (x.1, reqKeyOf x.1) with
        | false => rfl
        | true =>
          rw [reqKey_lt_iff] at hlt
          omega
      · intro x y z hx hy hz hxy hyz
        rw [hshape x hx, hshape y hy] at hxy
        rw [hshape y hy, hshape z hz] at hyz
        rw [hshape x hx, hshape z hz]
        rw [reqKey_lt_iff] at hxy hyz ⊢
        omega
    rw [List.pairwise_map]
    refine hsorted.imp_of_mem ?_
    intro a b ha hb hab
    have ha' := hperm.subset ha
    have hb' := hperm.subset hb
    rw [hshape a ha', hshape b hb'] at hab
    have : ¬ (reqGroup b.1 < reqGroup a.1 ∨
        (reqGroup b.1 = reqGroup a.1 ∧ reqIdVal b.1 < reqIdVal a.1)) := by
      intro hcon
      rw [← reqKey_lt_iff b.1 a.1] at hcon
      rw [hcon] at hab
      exact Bool.true_eq_false.mp hab
    unfold reqOrdered
    omega

theorem resortReqs_frame (a b : PyDict) (hwf : acqReqsWF a = true)
    (h : resortReqs a = .ok b) :
    (∀ k, k ≠ "requirements" → dictLookup b k = dictLookup a k) ∧
    ((∃ rs, dictLookup a "requirements" = some (pyList rs) ∧
       ∃ rs', dictLookup b "requirements" = some (pyList rs') ∧
         List.Perm rs' rs ∧ rs'.Pairwise reqOrdered) ∨
     (dictLookup a "requirements" = none ∧ b = a)) := by
  unfold resortReqs at h
  cases hla : dictLookup a "requirements" with
  | none =>
    rw [hla] at h
    have hb : b = a := by cases h; rfl
    subst hb
    exact ⟨fun k _ => rfl, Or.inr ⟨rfl, rfl⟩⟩
  | some v =>
    rw [hla] at h
    cases v with
    | pyList rs =>
      dsimp only at h
      have hall : ∀ r ∈ rs, reqWF r = true := by
        have := hwf
        rw [acqReqsWF, hla] at this
        simpa [List.all_eq_true] using this
      obtain ⟨rs', hsort, hperm, hpair⟩ := sortRequirements_wf rs hall
      rw [hsort] at h
      have hb : b = dictSet a "requirements" (pyList rs') := by
        cases h; rfl
      subst hb
      refine ⟨fun k hk => dictLookup_dictSet_ne _ _ _ _ hk, Or.inl ?_⟩
      exact ⟨rs, rfl, rs', dictLookup_dictSet_self _ _ _, hperm, hpair⟩
    | pyNone => rw [acqReqsWF, hla] at hwf; simp at hwf
    | pyBool bb => rw [acqReqsWF, hla] at hwf; simp at hwf
    | pyInt n => rw [acqReqsWF, hla] at hwf; simp at hwf
    | pyStr ss => rw [acqReqsWF, hla] at hwf; simp at hwf
    | pyDict dd => rw [acqReqsWF, hla] at hwf; simp at hwf

/-- C10: a successful sort_acquisitions run returns a permutation of
per-record copies in which each copy agrees with its source acquisition
on every key other than requirements, and its requirements value is a
permutation of the source requirements ordered items-first and
ascending by id (records without a requirements key pass through
unchanged); no other field of any acquisition is modified. -/
theorem sorter_frame_effect (l l' : List PyDict)
    (hwf : ∀ a ∈ l, acqReqsWF a = true)
    (h : sortAcquisitions l = .ok l') :
    ∃ m, mapME resortReqs l = .ok m ∧ List.Perm l' m ∧
      List.Forall₂ (fun a b =>
        (∀ k, k ≠ "requirements" → dictLookup b k = dictLookup a k) ∧
        ((∃ rs, dictLookup a "requirements" = some (pyList rs) ∧
           ∃ rs', dictLookup b "requirements" = some (pyList rs') ∧
             List.Perm rs' rs ∧ rs'.Pairwise reqOrdered) ∨
         (dictLookup a "requirements" = none ∧ b = a))) l m := by
  unfold sortAcquisitions at h
  cases hm : mapME resortReqs l with
  | error e => rw [hm] at h; exact absurd h (by simp)
  | ok m =>
    rw [hm] at h
    dsimp only at h
    refine ⟨m, rfl, ?_, ?_⟩
    · unfold sortByKeyE at h
      cases hpr : mapME (keyPairE getSortKey) m with
      | error e => rw [hpr] at h; exact absurd h (by simp)
      | ok pairs =>
        rw [hpr] at h
        dsimp only at h
        cases hiso : isortE ltOnKey pairs [] with
        | error e => rw [hiso] at h; exact absurd h (by simp)
        | ok s =>
          rw [hiso] at h
          have hl' : l' = s.map Prod.fst := by cases h; rfl
          subst hl'
          have hsp : List.Perm s pairs := by
            simpa using isortE_ok_perm hiso
          have := hsp.map Prod.fst
          rwa [mapME_keyPairE_fst hpr] at this
    · have hf2 := mapME_forall₂ hm
      clear h hm
      induction l generalizing m with
      | nil =>
        cases hf2
        exact .nil
      | cons a as ih =>
        cases hf2 with
        | cons hab hrest =>
          refine .cons ?_ (ih (fun x hx => hwf x (by simp [hx])) _ hrest)
          exact resortReqs_frame _ _ (hwf a (by simp)) hab

/-- A vendor acquisition with unsorted requirements. -/
def frameAcq : PyDict :=
  [("type", pyStr "vendor"), ("vendorName", pyStr "T"),
   ("outputQuantity", pyInt 1),
   ("requirements", pyList
     [pyDict [("currencyId", pyInt 1), ("quantity", pyInt 100)],
      pyDict [("itemId", pyInt 456), ("quantity", pyInt 2)],
      pyDict [("itemId", pyInt 123), ("quantity", pyInt 5)]])]

/-- The frameAcq record with its requirements resorted. -/
def frameSortedAcq : PyDict :=
  [("type", pyStr "vendor"), ("vendorName", pyStr "T"),
   ("outputQuantity", pyInt 1),
   ("requirements", pyList
     [pyDict [("itemId", pyInt 123), ("quantity", pyInt 5)],
      pyDict [("itemId", pyInt 456), ("quantity", pyInt 2)],
      pyDict [("currencyId", pyInt 1), ("quantity", pyInt 100)]])]

/-- C10 witness: the frame property applied to the concrete vendor
acquisition, whose output reorders only the requirements. -/
theorem sorter_frame_effect_witness :
    (∀ a ∈ [frameAcq], acqReqsWF a = true) ∧
    sortAcquisitions [frameAcq] = .ok [frameSortedAcq] ∧
    (∃ m, mapME resortReqs [frameAcq] = .ok m ∧
      List.Perm [frameSortedAcq] m ∧
      List.Forall₂ (fun a b =>
        (∀ k, k ≠ "requirements" → dictLookup b k = dictLookup a k) ∧
        ((∃ rs, dictLookup a "requirements" = some (pyList rs) ∧
           ∃ rs', dictLookup b "requirements" = some (pyList rs') ∧
             List.Perm rs' rs ∧ rs'.Pairwise reqOrdered) ∨
         (dictLookup a "requirements" = none ∧ b = a))) [frameAcq] m) :=
  ⟨by decide, by decide,
   sorter_frame_effect [frameAcq] [frameSortedAcq] (by decide) (by decide)⟩
